import Mathlib

/-!
# SimpleFileServer: request routing, path resolution and access boundary

A shallow embedding of `main.go` and `utils/http.go` / `utils/fs.go`.

Go strings are modelled as lists of characters (`Str`).  The server is assumed
to run on a Unix system, so `filepath.Separator` is `/` and `path/filepath`
agrees with `path` on `Clean`.  The library functions the handlers call
(`path.Clean`, `filepath.Join`, `filepath.Dir`, `strings.HasPrefix`, base64)
are modelled after their documented behaviour; the handlers themselves are
translated line by line.
-/

namespace SFS

/-- A Go string. -/
abbrev Str := List Char

/-- A byte of file content. -/
abbrev Byte := Fin 256

/-! ## `strings` -/

/-- Go `strings.HasPrefix`. -/
def hasPrefix : Str → Str → Bool
  | _, [] => true
  | [], _ :: _ => false
  | c :: s, d :: p => c == d && hasPrefix s p

/-- Go `strings.HasSuffix`. -/
def hasSuffix (s suffix : Str) : Bool :=
  hasPrefix s.reverse suffix.reverse

/-- Lower-casing of one character; HTTP method tokens are ASCII, where Go
`unicode.ToLower` maps `A`..`Z` to `a`..`z` and leaves the rest alone. -/
def lowerChar (c : Char) : Char :=
  if 65 ≤ c.toNat ∧ c.toNat ≤ 90 then Char.ofNat (c.toNat + 32) else c

/-- Go `strings.ToLower` (on ASCII input). -/
def toLower (s : Str) : Str := s.map lowerChar

/-- Go `unicode.IsSpace`. -/
def isSpace (c : Char) : Bool :=
  let n := c.toNat
  (9 ≤ n && n ≤ 13) || n == 32 || n == 0x85 || n == 0xA0 || n == 0x1680 ||
  (0x2000 ≤ n && n ≤ 0x200A) || n == 0x2028 || n == 0x2029 || n == 0x202F ||
  n == 0x205F || n == 0x3000

/-- Go `strings.TrimSpace`. -/
def trimSpace (s : Str) : Str :=
  ((s.dropWhile isSpace).reverse.dropWhile isSpace).reverse

/-! ## `path` and `path/filepath` (Unix) -/

/-- The elements of a path: the pieces between slashes (`strings.Split(p, "/")`). -/
def splitSlash : Str → List Str
  | [] => [[]]
  | c :: cs =>
    if c = '/' then [] :: splitSlash cs
    else
      match splitSlash cs with
      | [] => [[c]]
      | h :: t => (c :: h) :: t

/-- Go `strings.Join(elems, "/")`. -/
def joinSlash : List Str → Str
  | [] => []
  | [a] => a
  | a :: b :: rest => a ++ '/' :: joinSlash (b :: rest)

/-- One element of the path processed by `Clean`; `out` is the output so far,
last element first.  Empty elements (repeated slashes) and `.` are dropped; `..`
removes the preceding element when there is one that is not itself `..`, is
dropped at the start of a rooted path, and is kept otherwise. -/
def cleanPush (rooted : Bool) (out : List Str) (c : Str) : List Str :=
  if c = [] ∨ c = ['.'] then out
  else if c = ['.', '.'] then
    match out with
    | [] => if rooted then [] else [c]
    | top :: rest => if top = ['.', '.'] then c :: top :: rest else rest
  else c :: out

/-- The elements of the cleaned path, in order. -/
def cleanElems (rooted : Bool) (p : Str) : List Str :=
  ((splitSlash p).foldl (cleanPush rooted) []).reverse

/-- Go `path.Clean`: the shortest path equivalent to `p` by purely lexical
processing; the empty path and a relative path that cancels out give `.`. -/
def pathClean (p : Str) : Str :=
  if p = [] then ['.']
  else if p.head? = some '/' then '/' :: joinSlash (cleanElems true p)
  else if cleanElems false p = [] then ['.']
  else joinSlash (cleanElems false p)

/-- Go `filepath.Clean` on Unix. -/
def filepathClean (p : Str) : Str := pathClean p

/-- Go `filepath.Join` on Unix: leading empty elements are ignored, the rest is
joined with the separator and cleaned; no non-empty element gives the empty
string. -/
def filepathJoin (elems : List Str) : Str :=
  match elems.dropWhile (fun e => e = []) with
  | [] => []
  | rest => filepathClean (joinSlash rest)

/-- The part of a path up to and including its last slash. -/
def uptoLastSlash (p : Str) : Str :=
  (p.reverse.dropWhile (fun c => c ≠ '/')).reverse

/-- Go `filepath.Dir` on Unix: all but the last element, cleaned. -/
def filepathDir (p : Str) : Str := filepathClean (uptoLastSlash p)

/-- Go `filepath.Base` on Unix: the last element; trailing slashes are removed
first, the empty path gives `.` and a path of slashes gives `/`. -/
def filepathBase (p : Str) : Str :=
  if p = [] then ['.']
  else
    let q := (p.reverse.dropWhile (fun c => c = '/')).reverse
    let b := (q.reverse.takeWhile (fun c => c ≠ '/')).reverse
    if b = [] then ['/'] else b

/-! ## `encoding/base64` (`StdEncoding`) -/

/-- The standard base64 alphabet. -/
def encodeStd : List Char :=
  "ABCDEFGHIJKLMNOPQRSTUVWXYZabcdefghijklmnopqrstuvwxyz0123456789+/".toList

/-- The character of a 6-bit value (`enc.encode[v]`). -/
def encChar (v : Nat) : Char := encodeStd.getD v 'A'

/-- The 6-bit value of a character (`enc.decodeMap[c]`), if it is in the alphabet. -/
def decChar (c : Char) : Option Nat :=
  if c ∈ encodeStd then some (encodeStd.indexOf c) else none

/-- The byte `byte(v)` of an unsigned value. -/
def toByte (v : Nat) : Byte := ⟨v % 256, Nat.mod_lt _ (by decide)⟩

/-- Go `base64.StdEncoding.EncodeToString`: three bytes give four characters
(`val = b0<<16 | b1<<8 | b2`, then `val>>18&0x3F`, `val>>12&0x3F`,
`val>>6&0x3F`, `val&0x3F`); a remainder of one or two bytes is padded with `=`.
The shifts and masks are written as multiplication, division and remainder. -/
def base64Encode : List Byte → Str
  | [] => []
  | [a] =>
    let val := a.val * 65536
    [encChar (val / 262144 % 64), encChar (val / 4096 % 64), '=', '=']
  | [a, b] =>
    let val := a.val * 65536 + b.val * 256
    [encChar (val / 262144 % 64), encChar (val / 4096 % 64), encChar (val / 64 % 64), '=']
  | a :: b :: c :: rest =>
    let val := a.val * 65536 + b.val * 256 + c.val
    encChar (val / 262144 % 64) :: encChar (val / 4096 % 64) :: encChar (val / 64 % 64) ::
      encChar (val % 64) :: base64Encode rest

/-- The quanta of a base64 text without line breaks: four alphabet characters
give three bytes (`val = d0<<18 | d1<<12 | d2<<6 | d3`, then `val>>16`, `val>>8`,
`val`); padding is accepted only in the last quantum; anything else is a
`CorruptInputError` (`none`). -/
def decodeQuanta : Str → Option (List Byte)
  | [] => some []
  | [_] => none
  | [_, _] => none
  | [_, _, _] => none
  | a :: b :: c :: d :: rest =>
    match decChar a, decChar b with
    | some x, some y =>
      if c = '=' then
        if d = '=' ∧ rest = [] then some [toByte ((x * 262144 + y * 4096) / 65536)] else none
      else
        match decChar c with
        | none => none
        | some z =>
          if d = '=' then
            if rest = [] then
              let val := x * 262144 + y * 4096 + z * 64
              some [toByte (val / 65536), toByte (val / 256)]
            else none
          else
            match decChar d, decodeQuanta rest with
            | some w, some tail =>
              let val := x * 262144 + y * 4096 + z * 64 + w
              some (toByte (val / 65536) :: toByte (val / 256) :: toByte val :: tail)
            | _, _ => none
    | _, _ => none

/-- Go `base64.StdEncoding.DecodeString`: carriage returns and line feeds are
skipped, the rest is decoded quantum by quantum. -/
def base64Decode (s : Str) : Option (List Byte) :=
  decodeQuanta (s.filter (fun c => c != (Char.ofNat 10) && c != (Char.ofNat 13)))

/-! ## Requests, parameters and responses (`utils/http.go`) -/

/-- A value of a `map[string]interface{}` parameter map: a string, or any
other JSON value (on which the type assertion `.(string)` panics). -/
inductive JVal where
  | str (s : Str)
  | other
  deriving DecidableEq, Repr

/-- A Go `map[string]interface{}`: the first pair with a key is its binding, so an
assignment `params[key] = v` puts a pair in front. -/
abbrev Params := List (Str × JVal)

/-- The values of one key of `r.Form` (`url.Values`): never empty, `arr[0]` is `first`. -/
structure FormValues where
  first : Str
  rest : List Str
  deriving DecidableEq, Repr

/-- The parts of an `*http.Request` the handlers read.  `returnJSON` is the result
of `utils.ReturnJSON(r)`, which `main.go` calls and the sources do not define.
`body` is the outcome of `io.ReadAll(r.Body)`, `json` the outcome of
`json.Unmarshal` on the body, `form` the outcome of `r.ParseForm()` (the pairs of
`r.Form`, in the order the map is ranged over) and `multipart` the outcome of
`r.ParseMultipartForm` followed by `r.FormFile("file")`: the uploaded file name
and bytes.  In each of them `none` is an error. -/
structure Request where
  method : Str
  urlPath : Str
  returnJSON : Bool
  body : Option Str
  json : Option Params
  form : Option (List (Str × FormValues))
  multipart : Option (Option (Str × List Byte))

/-- Go `utils.HttpInput`: the JSON object of the body, when the trimmed body
starts with an opening brace (character 123) and ends with a closing brace
(character 125), then every key of the form set to the first
of its values.  `none` is the error return. -/
def HttpInput (r : Request) : Option Params :=
  match r.body with
  | none => none
  | some bodyBytes =>
    let content := trimSpace bodyBytes
    let parsed : Option Params :=
      if hasPrefix content [Char.ofNat 123] && hasSuffix content [Char.ofNat 125] then r.json
      else some []
    match parsed with
    | none => none
    | some params =>
      match r.form with
      | none => none
      | some form => some (form.foldl (fun acc kv => (kv.1, JVal.str kv.2.first) :: acc) params)

/-- One entry of a directory listing (`FileInfo` of `main.go`). -/
structure FileInfo where
  Name : Str
  Path : Str
  Size : Int
  ModTime : Nat
  IsDir : Bool
  deriving DecidableEq, Repr

/-- The listing handed to the template or the JSON envelope (`PageData`). -/
structure PageData where
  CurrentPath : Str
  ParentPath : Str
  Files : List FileInfo
  deriving DecidableEq, Repr

/-- The `data` of a response envelope. -/
inductive Data where
  | nil
  | page (d : PageData)
  | content (c : Str)
  deriving DecidableEq, Repr

/-- An argument of the variadic `utils.HttpOutput`. -/
inductive Arg where
  | int (n : Nat)
  | string (s : Str)
  | data (d : Data)
  deriving DecidableEq, Repr

/-- The code, message and data `utils.HttpOutput` answers with. -/
structure Envelope where
  code : Nat
  msg : Str
  data : Data
  deriving DecidableEq, Repr

/-- Go `utils.HttpOutput`: code 200, message `OK` and no data unless an argument
of the matching type replaces them (the type switch over `args`). -/
def HttpOutput (args : List Arg) : Envelope :=
  args.foldl
    (fun e a =>
      match a with
      | .int v => { e with code := v }
      | .string v => { e with msg := v }
      | .data v => { e with data := v })
    { code := 200, msg := "OK".toList, data := Data.nil }

/-- What a handler sends: an answer through `utils.HttpOutput`, the direct
download of `getHandler` (status 200, the headers built from the file name and
size, and the file bytes unless the body is withheld), the rendered `index.html`
page, or a run-time panic of the handler goroutine. -/
inductive Response where
  | output (e : Envelope)
  | download (filename : Str) (size : Int) (body : Option (List Byte))
  | html (d : PageData)
  | panic
  deriving DecidableEq, Repr

/-! ## The filesystem -/

/-- Outcome of `os.Stat`: an `IsNotExist` error, another error, or the info. -/
inductive StatResult where
  | notExist
  | failed
  | found (isDir : Bool)
  deriving DecidableEq, Repr

/-- Outcome of `os.Open` followed by `file.Stat()`: `opened none` is a failing
`Stat`, `opened (some (isDir, size))` its result. -/
inductive OpenResult where
  | notExist
  | failed
  | opened (info : Option (Bool × Int))
  deriving DecidableEq, Repr

/-- A child returned by `os.ReadDir`; `info` is the result of `entry.Info()`
(size and modification time), `none` when it fails. -/
structure DirEntry where
  name : Str
  isDir : Bool
  info : Option (Int × Nat)
  deriving DecidableEq, Repr

/-- The operating-system calls of the handlers over a state `σ`.  A call that
changes the filesystem returns the new state and whether it succeeded.
`fileCopy` and `dirCopy` are `utils.FileCopy` and `utils.DirCopy`. -/
structure FileSys (σ : Type) where
  stat : σ → Str → StatResult
  readDir : σ → Str → Option (List DirEntry)
  osOpen : σ → Str → OpenResult
  readFile : σ → Str → Option (List Byte)
  mkdirAll : σ → Str → σ × Bool
  writeFile : σ → Str → List Byte → σ × Bool
  remove : σ → Str → σ × Bool
  rename : σ → Str → Str → σ × Bool
  fileCopy : σ → Str → Str → σ × Bool
  dirCopy : σ → Str → Str → σ × Bool

/-- A filesystem call made by a handler, with the paths it was made on. -/
inductive FsCall where
  | stat (p : Str)
  | readDir (p : Str)
  | osOpen (p : Str)
  | readFile (p : Str)
  | mkdirAll (p : Str)
  | writeFile (p : Str)
  | remove (p : Str)
  | rename (src dst : Str)
  | fileCopy (src dst : Str)
  | dirCopy (src dst : Str)
  deriving DecidableEq, Repr

/-- Go `utils.Exist`: `!os.IsNotExist(err)`. -/
def Exist {σ : Type} (fs : FileSys σ) (s : σ) (p : Str) : Bool :=
  match fs.stat s p with
  | .notExist => false
  | _ => true

/-- Go `utils.IsDir`: `!os.IsNotExist(err) && info.IsDir()`; after an error other
than not-exist `info` is nil and the call panics (`none`). -/
def IsDir {σ : Type} (fs : FileSys σ) (s : σ) (p : Str) : Option Bool :=
  match fs.stat s p with
  | .notExist => some false
  | .failed => none
  | .found d => some d

/-- Go `utils.IsFile`: `!os.IsNotExist(err) && !info.IsDir()`. -/
def IsFile {σ : Type} (fs : FileSys σ) (s : σ) (p : Str) : Option Bool :=
  match fs.stat s p with
  | .notExist => some false
  | .failed => none
  | .found d => some (!d)

/-! ## The handlers (`main.go`) -/

/-- The package-level variables `indexHandler` sets for the handler it calls
(`rootDir`, `workDir`, `requestURL`, `localPath`, `isFolder` of `main.go`).
They are passed to the handler as the values `indexHandler` has just assigned:
this is the reading of one request served on its own.  In the program they are
shared by all request goroutines, so a handler may read what another request
has assigned in between; such interleavings are not part of this model, and
every statement below about a handler is about a request that is served without
another one running at the same time. -/
structure Ctx where
  rootDir : Str
  workDir : Str
  requestURL : Str
  localPath : Str
  isFolder : Bool
  deriving DecidableEq, Repr

/-- The result of serving a request: the response, the filesystem afterwards
and the filesystem calls made, in order. -/
structure Outcome (σ : Type) where
  resp : Response
  state : σ
  calls : List FsCall

/-- An answer through `utils.HttpOutput` with the given arguments. -/
def reply {σ : Type} (args : List Arg) (s : σ) (calls : List FsCall) : Outcome σ :=
  { resp := Response.output (HttpOutput args), state := s, calls := calls }

/-- Go `utils.Move`: `os.Rename`. -/
def Move {σ : Type} (fs : FileSys σ) (s : σ) (src dst : Str) : σ × Bool × List FsCall :=
  let r := fs.rename s src dst
  (r.1, r.2, [FsCall.rename src dst])

/-- Go `utils.Copy`: `FileCopy` for a file, `DirCopy` for a directory, otherwise
the error of `os.Stat`.  The middle component is `none` on a panic. -/
def Copy {σ : Type} (fs : FileSys σ) (s : σ) (src dst : Str) : σ × Option Bool × List FsCall :=
  match IsFile fs s src with
  | none => (s, none, [FsCall.stat src])
  | some true =>
    let r := fs.fileCopy s src dst
    (r.1, some r.2, [FsCall.stat src, FsCall.fileCopy src dst])
  | some false =>
    match IsDir fs s src with
    | none => (s, none, [FsCall.stat src, FsCall.stat src])
    | some true =>
      let r := fs.dirCopy s src dst
      (r.1, some r.2, [FsCall.stat src, FsCall.stat src, FsCall.dirCopy src dst])
    | some false =>
      (s, some (match fs.stat s src with | .found _ => true | _ => false),
        [FsCall.stat src, FsCall.stat src, FsCall.stat src])

/-- Go `getHandler`. -/
def getHandler {σ : Type} (fs : FileSys σ) (ctx : Ctx) (r : Request) (s : σ) : Outcome σ :=
  let calls := [FsCall.osOpen ctx.localPath]
  match fs.osOpen s ctx.localPath with
  | .notExist => reply [.int 404, .string "File not found".toList] s calls
  | .failed => reply [.int 500, .string "Error opening file".toList] s calls
  | .opened none => reply [.int 500, .string "Error getting file info".toList] s calls
  | .opened (some (isDir, size)) =>
    if isDir then reply [.int 400, .string "Cannot read directory".toList] s calls
    else if r.returnJSON then
      match fs.readFile s ctx.localPath with
      | none =>
        reply [.int 400, .string "Cannot read file".toList] s (calls ++ [FsCall.readFile ctx.localPath])
      | some bytes =>
        reply [.data (Data.content (base64Encode bytes))] s (calls ++ [FsCall.readFile ctx.localPath])
    else
      { resp := Response.download (filepathBase ctx.localPath) size
          (if r.method ≠ "HEAD".toList then some ((fs.readFile s ctx.localPath).getD []) else none),
        state := s, calls := calls }

/-- Go `postHandler`.  The texts of library errors appended to a message are
left out, and in the multipart branch `os.Create` followed by `io.Copy` is the
one call `writeFile`. -/
def postHandler {σ : Type} (fs : FileSys σ) (ctx : Ctx) (r : Request) (s : σ) : Outcome σ :=
  if r.returnJSON then
    match HttpInput r with
    | none => reply [.int 400, .string "Error parsing input params: ".toList] s []
    | some params =>
      match (params.lookup "filename".toList).getD (JVal.str ctx.requestURL) with
      | .other => { resp := Response.panic, state := s, calls := [] }
      | .str filename =>
        let dst := filepathClean filename
        let dstPath := filepathJoin [ctx.workDir, dst]
        if hasSuffix dst "/".toList || !hasPrefix dstPath ctx.rootDir then
          reply [.int 403, .string "Access denied".toList] s []
        else
          let calls := [FsCall.mkdirAll (filepathDir dstPath)]
          match fs.mkdirAll s (filepathDir dstPath) with
          | (s1, false) => reply [.int 500, .string "Error creating directory: ".toList] s1 calls
          | (s1, true) =>
            match params.lookup "content".toList with
            | none => reply [.string "Empty content".toList, .int 400] s1 calls
            | some .other => { resp := Response.panic, state := s1, calls := calls }
            | some (.str content) =>
              match base64Decode content with
              | none => reply [.string "Error content".toList, .int 400] s1 calls
              | some bytes =>
                match fs.writeFile s1 dstPath bytes with
                | (s2, false) =>
                  reply [.int 500, .string "Failed to write file".toList] s2
                    (calls ++ [FsCall.writeFile dstPath])
                | (s2, true) => reply [] s2 (calls ++ [FsCall.writeFile dstPath])
  else
    match r.multipart with
    | none => reply [.int 400, .string "Error parsing form: ".toList] s []
    | some none => reply [.int 400, .string "Error retrieving file: ".toList] s []
    | some (some (headerFilename, bytes)) =>
      let calls := [FsCall.mkdirAll ctx.workDir]
      match fs.mkdirAll s ctx.workDir with
      | (s1, false) => reply [.int 500, .string "Error creating directory: ".toList] s1 calls
      | (s1, true) =>
        let filename :=
          if !ctx.isFolder then filepathBase ctx.requestURL else filepathBase headerFilename
        let dstPath := filepathJoin [ctx.workDir, filename]
        match fs.writeFile s1 dstPath bytes with
        | (s2, false) =>
          reply [.int 500, .string "Error creating file: ".toList] s2
            (calls ++ [FsCall.writeFile dstPath])
        | (s2, true) => reply [] s2 (calls ++ [FsCall.writeFile dstPath])

/-- Go `putHandler`. -/
def putHandler {σ : Type} (fs : FileSys σ) (ctx : Ctx) (r : Request) (s : σ) : Outcome σ :=
  let calls := [FsCall.stat ctx.localPath]
  if !Exist fs s ctx.localPath then reply [.int 404, .string "Not found".toList] s calls
  else
    match HttpInput r with
    | none => reply [.int 400, .string "Error parsing input params: ".toList] s calls
    | some params =>
      match params.lookup "act".toList, params.lookup "dst".toList with
      | some act, some dst =>
        match act with
        | .other => { resp := Response.panic, state := s, calls := calls }
        | .str action =>
          if !(["move".toList, "copy".toList].contains action) then
            reply [.int 400, .string "Error action".toList] s calls
          else
            match dst with
            | .other => { resp := Response.panic, state := s, calls := calls }
            | .str dstRaw =>
              let dstName := filepathClean dstRaw
              let dstPath :=
                filepathJoin [if hasPrefix dstName "/".toList then ctx.rootDir else ctx.workDir, dstName]
              if dstName = "/".toList || !hasPrefix dstPath ctx.rootDir then
                reply [.int 403, .string "Access denied".toList] s calls
              else
                let calls1 := calls ++ [FsCall.mkdirAll (filepathDir dstPath)]
                match fs.mkdirAll s (filepathDir dstPath) with
                | (s1, false) =>
                  reply [.int 500, .string "Error creating directory: ".toList] s1 calls1
                | (s1, true) =>
                  if action = "move".toList then
                    match Move fs s1 ctx.localPath dstPath with
                    | (s2, false, cs) =>
                      reply [.int 500, .string ("Error ".toList ++ action ++ ": ".toList)] s2 (calls1 ++ cs)
                    | (s2, true, cs) => reply [] s2 (calls1 ++ cs)
                  else
                    match Copy fs s1 ctx.localPath dstPath with
                    | (s2, none, cs) => { resp := Response.panic, state := s2, calls := calls1 ++ cs }
                    | (s2, some false, cs) =>
                      reply [.int 500, .string ("Error ".toList ++ action ++ ": ".toList)] s2 (calls1 ++ cs)
                    | (s2, some true, cs) => reply [] s2 (calls1 ++ cs)
      | _, _ => reply [.int 400, .string "Lost params".toList] s calls

/-- Go `deleteHandler`. -/
def deleteHandler {σ : Type} (fs : FileSys σ) (ctx : Ctx) (s : σ) : Outcome σ :=
  if ctx.requestURL = "/".toList then reply [.int 403, .string "Forbbidden".toList] s []
  else
    let calls := [FsCall.stat ctx.localPath]
    if !Exist fs s ctx.localPath then reply [.int 404, .string "Not found".toList] s calls
    else
      match fs.remove s ctx.localPath with
      | (s1, false) =>
        reply [.int 400, .string ("Unable to remove the path:".toList ++ ctx.requestURL)] s1
          (calls ++ [FsCall.remove ctx.localPath])
      | (s1, true) => reply [] s1 (calls ++ [FsCall.remove ctx.localPath])

/-- The handlers registered in `functionMap`. -/
inductive Handler where
  | get
  | post
  | put
  | delete
  deriving DecidableEq, Repr

/-- The `functionMap` of `indexHandler`. -/
def functionMap : List (Str × Handler) :=
  [("get".toList, Handler.get), ("post".toList, Handler.post),
   ("put".toList, Handler.put), ("delete".toList, Handler.delete)]

/-- What `indexHandler` does with a resolved request. -/
inductive Action where
  | list
  | call (h : Handler)
  | methodNotAllowed
  deriving DecidableEq, Repr

/-- The dispatch of `indexHandler`: unless the target is a folder and the method
is `GET`, the handler registered under the lower-cased method, or 405 when
there is none; otherwise the directory listing. -/
def dispatch (method : Str) (isFolder : Bool) : Action :=
  if !isFolder || method ≠ "GET".toList then
    match functionMap.lookup (toLower method) with
    | some fn => Action.call fn
    | none => Action.methodNotAllowed
  else Action.list

/-- One round of the loop over the directory entries: an entry whose `Info()`
fails is skipped, a directory goes to `folders`, anything else to `files`.
The accumulator is `(files, folders)`. -/
def listStep (requestURL : Str) (acc : List FileInfo × List FileInfo) (entry : DirEntry) :
    List FileInfo × List FileInfo :=
  match entry.info with
  | none => acc
  | some (size, modTime) =>
    let item : FileInfo :=
      { Name := entry.name, Path := filepathJoin [requestURL, entry.name],
        Size := size, ModTime := modTime, IsDir := entry.isDir }
    if entry.isDir then (acc.1, acc.2 ++ [item]) else (acc.1 ++ [item], acc.2)

/-- The `Files` of the listing: `append(folders, files...)` after the loop. -/
def listFiles (requestURL : Str) (entries : List DirEntry) : List FileInfo :=
  let acc := entries.foldl (listStep requestURL) ([], [])
  acc.2 ++ acc.1

/-- The `parentPath` computed by `indexHandler`. -/
def parentPathOf (requestURL : Str) : Str :=
  if requestURL ≠ [] then
    let parentPath := filepathDir requestURL
    if parentPath = ".".toList then [] else parentPath
  else []

/-- The `PageData` built by `indexHandler`. -/
def pageData (requestURL : Str) (entries : List DirEntry) : PageData :=
  { CurrentPath := requestURL, ParentPath := parentPathOf requestURL,
    Files := listFiles requestURL entries }

/-- The `localPath` of a request path under a root. -/
def localPathOf (rootDir urlPath : Str) : Str :=
  filepathClean (filepathJoin [rootDir, pathClean urlPath])

/-- Run a registered handler. -/
def runHandler {σ : Type} (fs : FileSys σ) (ctx : Ctx) (r : Request) (s : σ) : Handler → Outcome σ
  | .get => getHandler fs ctx r s
  | .post => postHandler fs ctx r s
  | .put => putHandler fs ctx r s
  | .delete => deleteHandler fs ctx s

/-- Put the calls made before a handler in front of its own. -/
def Outcome.after {σ : Type} (calls : List FsCall) (o : Outcome σ) : Outcome σ :=
  { o with calls := calls ++ o.calls }

/-- Go `indexHandler`.  The rendering of the template is taken to succeed. -/
def indexHandler {σ : Type} (fs : FileSys σ) (rootDir : Str) (r : Request) (s : σ) : Outcome σ :=
  let requestURL := pathClean r.urlPath
  let localPath := filepathClean (filepathJoin [rootDir, requestURL])
  if !hasPrefix requestURL "/".toList then reply [.int 400, .string "Invalid path".toList] s []
  else if !hasPrefix localPath rootDir then reply [.int 403, .string "Access denied".toList] s []
  else
    let folder : Option Bool × List FsCall :=
      if hasSuffix requestURL "/".toList then (some true, [])
      else (IsDir fs s localPath, [FsCall.stat localPath])
    match folder with
    | (none, calls) => { resp := Response.panic, state := s, calls := calls }
    | (some isFolder, calls) =>
      let workDir := if isFolder then localPath else filepathDir localPath
      let ctx : Ctx :=
        { rootDir := rootDir, workDir := workDir, requestURL := requestURL,
          localPath := localPath, isFolder := isFolder }
      match dispatch r.method isFolder with
      | .call fn => (runHandler fs ctx r s fn).after calls
      | .methodNotAllowed => reply [.int 405, .string "Method not allowed".toList] s calls
      | .list =>
        match fs.readDir s localPath with
        | none =>
          reply [.int 500, .string "Error reading directory".toList] s
            (calls ++ [FsCall.readDir localPath])
        | some entries =>
          let data := pageData requestURL entries
          if r.returnJSON then reply [.data (Data.page data)] s (calls ++ [FsCall.readDir localPath])
          else { resp := Response.html data, state := s, calls := calls ++ [FsCall.readDir localPath] }

/-! ## An explicit filesystem state

A reference filesystem in memory: a table from cleaned absolute paths to files
and directories, without permissions, links or input/output errors.  The
tables meant are those in which the parent of every bound path is bound to a
directory. -/

/-- A file with its bytes, or a directory. -/
inductive Node where
  | file (content : List Byte)
  | dir
  deriving DecidableEq, Repr

/-- The table of a filesystem; the first pair with a path is its binding. -/
abbrev MemFS := List (Str × Node)

namespace MemFS

/-- The node at a path. -/
def get (m : MemFS) (p : Str) : Option Node := m.lookup p

/-- Remove the binding of a path. -/
def erase (m : MemFS) (p : Str) : MemFS := m.filter (fun kv => kv.1 ≠ p)

/-- Bind a path to a node. -/
def set (m : MemFS) (p : Str) (n : Node) : MemFS := (p, n) :: erase m p

/-- Whether `q` is `p` or lies below it. -/
def under (p q : Str) : Bool :=
  q = p || hasPrefix q (if p = "/".toList then p else p ++ "/".toList)

/-- The paths bound in the table that lie directly inside `p`. -/
def children (m : MemFS) (p : Str) : List (Str × Node) :=
  m.filter (fun kv => kv.1 ≠ p && filepathDir kv.1 = p)

/-- The path and every directory above it, outermost first. -/
def chain (p : Str) : List Str :=
  let elems := (splitSlash p).filter (fun e => e ≠ [])
  if p.head? = some '/' then elems.inits.map (fun es => '/' :: joinSlash es)
  else elems.inits.tail.map joinSlash

/-- Whether one of the directories above `p` is bound to a regular file, so that
looking `p` up fails with `ENOTDIR`. -/
def belowFile (m : MemFS) (p : Str) : Bool :=
  (chain p).dropLast.any (fun q =>
    match get m q with
    | some (Node.file _) => true
    | _ => false)

/-- The `os.Stat` of the table; below a regular file the error is `ENOTDIR`, which
is not a not-exist error. -/
def stat (m : MemFS) (p : Str) : StatResult :=
  match get m p with
  | none => if belowFile m p then StatResult.failed else StatResult.notExist
  | some Node.dir => StatResult.found true
  | some (Node.file _) => StatResult.found false

/-- The `os.ReadDir` of the table: the children of a directory, by name. -/
def readDir (m : MemFS) (p : Str) : Option (List DirEntry) :=
  match get m p with
  | some Node.dir =>
    some (((children m p).map (fun kv =>
      match kv.2 with
      | Node.dir => { name := filepathBase kv.1, isDir := true, info := some (0, 0) : DirEntry }
      | Node.file c =>
        { name := filepathBase kv.1, isDir := false, info := some (c.length, 0) })).insertionSort
          (fun a b => a.name ≤ b.name))
  | _ => none

/-- The `os.Open` and `file.Stat` of the table. -/
def osOpen (m : MemFS) (p : Str) : OpenResult :=
  match get m p with
  | none => if belowFile m p then OpenResult.failed else OpenResult.notExist
  | some Node.dir => OpenResult.opened (some (true, 0))
  | some (Node.file c) => OpenResult.opened (some (false, c.length))

/-- The `os.ReadFile` of the table. -/
def readFile (m : MemFS) (p : Str) : Option (List Byte) :=
  match get m p with
  | some (Node.file c) => some c
  | _ => none

/-- The `os.MkdirAll` of the table: every missing directory of the chain is
created, outermost first; a file in the way is an error. -/
def mkdirAll (m : MemFS) (p : Str) : MemFS × Bool :=
  (chain p).foldl
    (fun acc q =>
      if acc.2 then
        match get acc.1 q with
        | none => (set acc.1 q Node.dir, true)
        | some Node.dir => (acc.1, true)
        | some (Node.file _) => (acc.1, false)
      else acc)
    (m, true)

/-- The `os.WriteFile` of the table: the parent must be a directory and the
path must not be one. -/
def writeFile (m : MemFS) (p : Str) (bytes : List Byte) : MemFS × Bool :=
  if get m (filepathDir p) = some Node.dir ∧ get m p ≠ some Node.dir then
    (set m p (Node.file bytes), true)
  else (m, false)

/-- The `os.Remove` of the table: a file or an empty directory. -/
def remove (m : MemFS) (p : Str) : MemFS × Bool :=
  match get m p with
  | none => (m, false)
  | some (Node.file _) => (erase m p, true)
  | some Node.dir => if children m p = [] then (erase m p, true) else (m, false)

/-- Move the bindings at and below `src` to the same places below `dst`. -/
def graft (m : MemFS) (src dst : Str) : MemFS :=
  (m.filter (fun kv => under src kv.1)).map (fun kv => (dst ++ kv.1.drop src.length, kv.2)) ++
    m.filter (fun kv => !under src kv.1 && !under dst kv.1)

/-- The `os.Rename` of the table: the source must exist, the parent of the
destination must be a directory, the destination may not lie inside the
source, and a directory may replace only an empty directory, a file only a
file. -/
def rename (m : MemFS) (src dst : Str) : MemFS × Bool :=
  match get m src with
  | none => (m, false)
  | some n =>
    if src = dst then (m, true)
    else if get m (filepathDir dst) ≠ some Node.dir ∨ under src dst then (m, false)
    else
      match n, get m dst with
      | _, none => (graft m src dst, true)
      | Node.file _, some (Node.file _) => (graft m src dst, true)
      | Node.dir, some Node.dir => if children m dst = [] then (graft m src dst, true) else (m, false)
      | _, _ => (m, false)

/-- The `utils.FileCopy` of the table: `os.Open(src)`, then `os.Create(dst)`, which
empties the destination, then `io.Copy`, which reads the source as it is after
that (so a file copied onto itself ends empty) and fails on a directory. -/
def fileCopy (m : MemFS) (src dst : Str) : MemFS × Bool :=
  match get m src with
  | none => (m, false)
  | some _ =>
    let created := writeFile m dst []
    if created.2 then
      match get created.1 src with
      | some (Node.file c) => writeFile created.1 dst c
      | _ => (created.1, false)
    else (m, false)

/-- The number of nested directories after which the walk of `dirCopy` is cut
off; the walk of the real filesystem ends there at the latest with a
path-too-long error. -/
def walkDepth : Nat := 4096

/-- The walk of `utils.DirCopy` (`filepath.Walk` with its callback) from `path`:
a file is copied with `fileCopy`; for a directory the names in it are read
first, in lexical order, then the directory is made below `dst` with
`mkdirAll`, then the names read are walked.  The first error ends the walk. -/
def walkCopy (src dst : Str) : Nat → MemFS → Str → MemFS × Bool
  | 0, m, _ => (m, false)
  | fuel + 1, m, path =>
    match get m path with
    | none => (m, false)
    | some (Node.file _) => fileCopy m path (filepathJoin [dst, path.drop src.length])
    | some Node.dir =>
      let names := ((children m path).map (fun kv => filepathBase kv.1)).insertionSort
        (fun a b => a ≤ b)
      let made := mkdirAll m (filepathJoin [dst, path.drop src.length])
      if made.2 then
        names.foldl
          (fun acc name =>
            if acc.2 then walkCopy src dst fuel acc.1 (filepathJoin [path, name]) else acc)
          made
      else made

/-- The `utils.DirCopy` of the table. -/
def dirCopy (m : MemFS) (src dst : Str) : MemFS × Bool :=
  walkCopy src dst walkDepth m src

end MemFS

/-- The operating-system calls on the table. -/
def memFS : FileSys MemFS :=
  { stat := MemFS.stat, readDir := MemFS.readDir, osOpen := MemFS.osOpen,
    readFile := MemFS.readFile, mkdirAll := MemFS.mkdirAll, writeFile := MemFS.writeFile,
    remove := MemFS.remove, rename := MemFS.rename, fileCopy := MemFS.fileCopy,
    dirCopy := MemFS.dirCopy }

/-! ## Cleaned paths -/

/-- An element of a cleaned rooted path: not empty, not `.`, not `..`, without a slash. -/
def Good (c : Str) : Prop := c ≠ [] ∧ c ≠ ['.'] ∧ c ≠ ['.', '.'] ∧ '/' ∉ c

/-- The rooted path with the given elements. -/
def absPath (gs : List Str) : Str := '/' :: joinSlash gs

/-- The listing entry of a directory child, when its `Info()` succeeds. -/
def entryItem (requestURL : Str) (entry : DirEntry) : Option FileInfo :=
  entry.info.map (fun i =>
    { Name := entry.name, Path := filepathJoin [requestURL, entry.name],
      Size := i.1, ModTime := i.2, IsDir := entry.isDir })

/-! ## Example requests and states -/

/-- The root of the examples. -/
def exampleRoot : Str := "/srv/data".toList

/-- A filesystem with the root directory and one file `a.txt` (`hi`) in it. -/
def exampleFS : MemFS :=
  [("/".toList, Node.dir), ("/srv".toList, Node.dir), ("/srv/data".toList, Node.dir),
   ("/srv/data/a.txt".toList, Node.file [toByte 104, toByte 105])]

/-- The example filesystem with one more directory, `d`, in the root. -/
def exampleFSWithDir : MemFS := ("/srv/data/d".toList, Node.dir) :: exampleFS

/-- A request in JSON mode with the given body text, `members` being the string
members of the JSON object the body denotes; it carries no form fields. -/
def jsonRequest (method urlPath body : String) (members : List (String × String)) : Request :=
  { method := method.toList, urlPath := urlPath.toList, returnJSON := true,
    body := some body.toList,
    json := some (members.map (fun kv => (kv.1.toList, JVal.str kv.2.toList))),
    form := some [], multipart := none }

/-- A request without a body and without form fields. -/
def bodyless (method urlPath : String) (returnJSON : Bool) : Request :=
  { method := method.toList, urlPath := urlPath.toList, returnJSON := returnJSON,
    body := some [], json := none, form := some [], multipart := none }

/-- The status code of an answer sent through `utils.HttpOutput`. -/
def respCode : Response → Option Nat
  | .output e => some e.code
  | _ => none

/-- A request whose body is the JSON object with the member `a` = `J` and whose
form has the field `a` = `F`. -/
def overlapRequest : Request :=
  { method := "PUT".toList, urlPath := "/".toList, returnJSON := true,
    body := some "\x7b\"a\":\"J\"\x7d".toList,
    json := some [("a".toList, JVal.str "J".toList)],
    form := some [("a".toList, { first := "F".toList, rest := [] })],
    multipart := none }

/-! ## Lemmas on `Clean` and `Join` -/

theorem splitSlash_ne_nil (s : Str) : splitSlash s ≠ [] := by
  cases s with
  | nil => simp [splitSlash]
  | cons c cs =>
    simp only [splitSlash]
    split
    · simp
    · split <;> simp

theorem splitSlash_append_slash (a b : Str) :
    splitSlash (a ++ '/' :: b) = splitSlash a ++ splitSlash b := by
  induction a with
  | nil => simp [splitSlash]
  | cons c a ih =>
    by_cases hc : c = '/'
    · simp [splitSlash, hc, ih]
    · cases h : splitSlash a with
      | nil => exact absurd h (splitSlash_ne_nil a)
      | cons x xs =>
        rw [h] at ih
        simp only [List.cons_append, splitSlash, hc, if_false, List.append_eq, ih, h]

theorem splitSlash_of_not_mem (c : Str) (h : '/' ∉ c) : splitSlash c = [c] := by
  induction c with
  | nil => simp [splitSlash]
  | cons x xs ih =>
    have hx : x ≠ '/' := fun e => h (by simp [e])
    have hxs : '/' ∉ xs := fun e => h (by simp [e])
    simp [splitSlash, hx, ih hxs]

theorem not_mem_of_mem_splitSlash (s c : Str) (h : c ∈ splitSlash s) : '/' ∉ c := by
  induction s generalizing c with
  | nil =>
    simp [splitSlash] at h
    simp [h]
  | cons x xs ih =>
    by_cases hx : x = '/'
    · simp only [splitSlash, hx, if_true, List.mem_cons] at h
      rcases h with h | h
      · simp [h]
      · exact ih c h
    · simp only [splitSlash, hx, if_false] at h
      cases hs : splitSlash xs with
      | nil => exact absurd hs (splitSlash_ne_nil xs)
      | cons y ys =>
        rw [hs] at h
        simp only [List.mem_cons] at h
        rcases h with h | h
        · subst h
          have hy : '/' ∉ y := ih y (by simp [hs])
          intro hmem
          simp only [List.mem_cons] at hmem
          rcases hmem with e | e
          · exact hx e.symm
          · exact hy e
        · exact ih c (by simp [hs, h])

theorem splitSlash_joinSlash (cs : List Str) (hne : cs ≠ []) (h : ∀ c ∈ cs, '/' ∉ c) :
    splitSlash (joinSlash cs) = cs := by
  induction cs with
  | nil => exact absurd rfl hne
  | cons a rest ih =>
    cases rest with
    | nil => simpa [joinSlash] using splitSlash_of_not_mem a (h a (by simp))
    | cons b rest2 =>
      have h1 := splitSlash_of_not_mem a (h a (by simp))
      have h2 := ih (by simp) (fun c hc => h c (by simp [hc]))
      simp only [joinSlash, splitSlash_append_slash, h1, h2]
      simp

theorem cleanPush_of_good (rooted : Bool) (out : List Str) (c : Str) (hc : Good c) :
    cleanPush rooted out c = c :: out := by
  simp [cleanPush, hc.1, hc.2.1, hc.2.2.1]

theorem foldl_cleanPush_good (rooted : Bool) (l out : List Str)
    (h : ∀ c ∈ l, Good c ∨ c = []) :
    l.foldl (cleanPush rooted) out = (l.filter (fun c => c ≠ [])).reverse ++ out := by
  induction l generalizing out with
  | nil => simp
  | cons c l ih =>
    have hl : ∀ d ∈ l, Good d ∨ d = [] := fun d hd => h d (by simp [hd])
    rcases h c (by simp) with hc | hc
    · simp [List.foldl_cons, cleanPush_of_good rooted out c hc, ih _ hl, hc.1]
    · subst hc
      simp [cleanPush, ih _ hl]

theorem cleanPush_true_good (out : List Str) (c : Str) (hc : '/' ∉ c)
    (ho : ∀ d ∈ out, Good d) : ∀ d ∈ cleanPush true out c, Good d := by
  unfold cleanPush
  by_cases h1 : c = [] ∨ c = ['.']
  · simpa [h1] using ho
  · simp only [h1, if_false]
    by_cases h2 : c = ['.', '.']
    · simp only [h2, if_true]
      cases out with
      | nil => simp
      | cons top rest =>
        have ht : top ≠ ['.', '.'] := (ho top (by simp)).2.2.1
        simp only [ht, if_false]
        exact fun d hd => ho d (by simp [hd])
    · simp only [h2, if_false]
      intro d hd
      simp only [List.mem_cons] at hd
      rcases hd with hd | hd
      · subst hd
        exact ⟨fun e => h1 (Or.inl e), fun e => h1 (Or.inr e), h2, hc⟩
      · exact ho d hd

theorem foldl_cleanPush_true_good (l out : List Str) (hl : ∀ c ∈ l, '/' ∉ c)
    (ho : ∀ d ∈ out, Good d) : ∀ d ∈ l.foldl (cleanPush true) out, Good d := by
  induction l generalizing out with
  | nil => simpa using ho
  | cons c l ih =>
    simp only [List.foldl_cons]
    exact ih _ (fun d hd => hl d (by simp [hd]))
      (cleanPush_true_good out c (hl c (by simp)) ho)

theorem cleanElems_true_good (p : Str) : ∀ d ∈ cleanElems true p, Good d := by
  intro d hd
  unfold cleanElems at hd
  rw [List.mem_reverse] at hd
  exact foldl_cleanPush_true_good (splitSlash p) [] (not_mem_of_mem_splitSlash p) (by simp) d hd

theorem cleanPush_false_plain (out : List Str) (c : Str) (hc : '/' ∉ c)
    (ho : ∀ d ∈ out, d ≠ [] ∧ '/' ∉ d) : ∀ d ∈ cleanPush false out c, d ≠ [] ∧ '/' ∉ d := by
  unfold cleanPush
  by_cases h1 : c = [] ∨ c = ['.']
  · simpa [h1] using ho
  · simp only [h1, if_false]
    by_cases h2 : c = ['.', '.']
    · simp only [h2, if_true]
      cases out with
      | nil => simp
      | cons top rest =>
        by_cases ht : top = ['.', '.']
        · simp only [ht, if_true]
          intro d hd
          simp only [List.mem_cons] at hd
          rcases hd with hd | hd | hd
          · subst hd; simp
          · subst hd; simp
          · exact ho d (by simp [hd])
        · simp only [ht, if_false]
          exact fun d hd => ho d (by simp [hd])
    · simp only [h2, if_false]
      intro d hd
      simp only [List.mem_cons] at hd
      rcases hd with hd | hd
      · subst hd
        exact ⟨fun e => h1 (Or.inl e), hc⟩
      · exact ho d hd

theorem foldl_cleanPush_false_plain (l out : List Str) (hl : ∀ c ∈ l, '/' ∉ c)
    (ho : ∀ d ∈ out, d ≠ [] ∧ '/' ∉ d) :
    ∀ d ∈ l.foldl (cleanPush false) out, d ≠ [] ∧ '/' ∉ d := by
  induction l generalizing out with
  | nil => simpa using ho
  | cons c l ih =>
    simp only [List.foldl_cons]
    exact ih _ (fun d hd => hl d (by simp [hd]))
      (cleanPush_false_plain out c (hl c (by simp)) ho)

theorem cleanElems_false_plain (p : Str) : ∀ d ∈ cleanElems false p, d ≠ [] ∧ '/' ∉ d := by
  intro d hd
  unfold cleanElems at hd
  rw [List.mem_reverse] at hd
  exact foldl_cleanPush_false_plain (splitSlash p) [] (not_mem_of_mem_splitSlash p) (by simp) d hd

theorem hasPrefix_slash_iff (s : Str) : hasPrefix s ['/'] = true ↔ s.head? = some '/' := by
  cases s with
  | nil => simp [hasPrefix]
  | cons c cs => simp [hasPrefix]

theorem pathClean_rooted (p : Str) (h : p.head? = some '/') :
    pathClean p = absPath (cleanElems true p) := by
  have hp : p ≠ [] := by
    intro e
    simp [e] at h
  simp [pathClean, hp, h, absPath]

theorem head_of_pathClean_rooted (p : Str) (h : hasPrefix (pathClean p) ['/'] = true) :
    p.head? = some '/' := by
  by_contra hn
  have hne : (pathClean p).head? ≠ some '/' := by
    unfold pathClean
    by_cases hp : p = []
    · simp [hp]
    · simp only [hp, hn, if_false]
      by_cases he : cleanElems false p = []
      · simp [he]
      · simp only [he, if_false]
        cases hc : cleanElems false p with
        | nil => exact absurd hc he
        | cons a rest =>
          have ha := cleanElems_false_plain p a (by simp [hc])
          cases a with
          | nil => exact absurd rfl ha.1
          | cons x xs =>
            have hx : x ≠ '/' := fun e => ha.2 (by simp [e])
            cases rest with
            | nil => simpa [joinSlash] using hx
            | cons b rest2 => simpa [joinSlash] using hx
  exact hne ((hasPrefix_slash_iff _).1 h)

theorem splitSlash_joinSlash_good (gs : List Str) (h : ∀ g ∈ gs, Good g) :
    (∀ c ∈ splitSlash (joinSlash gs), Good c ∨ c = []) ∧
      (splitSlash (joinSlash gs)).filter (fun c => c ≠ []) = gs := by
  cases gs with
  | nil => simp [joinSlash, splitSlash]
  | cons a rest =>
    rw [splitSlash_joinSlash (a :: rest) (by simp) (fun c hc => (h c hc).2.2.2)]
    refine ⟨fun c hc => Or.inl (h c hc), ?_⟩
    rw [List.filter_eq_self]
    intro c hc
    simpa using (h c hc).1

theorem cleanElems_absPath (gs : List Str) (h : ∀ g ∈ gs, Good g) :
    cleanElems true (absPath gs) = gs := by
  obtain ⟨h1, h2⟩ := splitSlash_joinSlash_good gs h
  have hs : splitSlash (absPath gs) = [] :: splitSlash (joinSlash gs) := by
    simp [absPath, splitSlash]
  unfold cleanElems
  rw [hs, foldl_cleanPush_good true _ []
    (by
      intro c hc
      simp only [List.mem_cons] at hc
      rcases hc with hc | hc
      · exact Or.inr hc
      · exact h1 c hc)]
  have h3 : List.filter (fun c => !decide (c = [])) (splitSlash (joinSlash gs)) = gs := by
    simpa using h2
  simp [h3]

theorem pathClean_absPath (gs : List Str) (h : ∀ g ∈ gs, Good g) :
    pathClean (absPath gs) = absPath gs := by
  rw [pathClean_rooted (absPath gs) (by simp [absPath]), cleanElems_absPath gs h]

theorem absPath_injective (as bs : List Str) (ha : ∀ g ∈ as, Good g) (hb : ∀ g ∈ bs, Good g)
    (h : absPath as = absPath bs) : as = bs := by
  rw [← cleanElems_absPath as ha, ← cleanElems_absPath bs hb, h]

theorem filepathJoin_absPath (as bs : List Str) (ha : ∀ g ∈ as, Good g)
    (hb : ∀ g ∈ bs, Good g) :
    filepathJoin [absPath as, absPath bs] = absPath (as ++ bs) := by
  obtain ⟨a1, a2⟩ := splitSlash_joinSlash_good as ha
  obtain ⟨b1, b2⟩ := splitSlash_joinSlash_good bs hb
  have hj : filepathJoin [absPath as, absPath bs] = pathClean (absPath as ++ '/' :: absPath bs) := by
    simp [filepathJoin, filepathClean, absPath, joinSlash]
  have hs : splitSlash (absPath as ++ '/' :: absPath bs) =
      ([] :: splitSlash (joinSlash as)) ++ ([] :: splitSlash (joinSlash bs)) := by
    rw [splitSlash_append_slash]
    simp [absPath, splitSlash]
  rw [hj, pathClean_rooted _ (by simp [absPath])]
  congr 1
  unfold cleanElems
  rw [hs, foldl_cleanPush_good true _ []
    (by
      intro c hc
      simp only [List.mem_append, List.mem_cons] at hc
      rcases hc with (hc | hc) | (hc | hc)
      · exact Or.inr hc
      · exact a1 c hc
      · exact Or.inr hc
      · exact b1 c hc)]
  have a3 : List.filter (fun c => !decide (c = [])) (splitSlash (joinSlash as)) = as := by
    simpa using a2
  have b3 : List.filter (fun c => !decide (c = [])) (splitSlash (joinSlash bs)) = bs := by
    simpa using b2
  simp [List.filter_append, a3, b3]

theorem exists_absPath_of_rooted (p : Str) (h : hasPrefix (pathClean p) ['/'] = true) :
    ∃ bs, (∀ g ∈ bs, Good g) ∧ pathClean p = absPath bs :=
  ⟨cleanElems true p, cleanElems_true_good p,
    pathClean_rooted p (head_of_pathClean_rooted p h)⟩

theorem exists_absPath_of_clean (R : Str) (h1 : hasPrefix R ['/'] = true)
    (h2 : filepathClean R = R) : ∃ as, (∀ g ∈ as, Good g) ∧ R = absPath as := by
  have h3 : hasPrefix (pathClean R) ['/'] = true := by
    rw [show pathClean R = R from h2]
    exact h1
  obtain ⟨as, ha, he⟩ := exists_absPath_of_rooted R h3
  exact ⟨as, ha, by rw [← he]; exact h2.symm⟩

theorem localPathOf_absPath (as : List Str) (p : Str) (bs : List Str)
    (ha : ∀ g ∈ as, Good g) (hb : ∀ g ∈ bs, Good g) (hp : pathClean p = absPath bs) :
    localPathOf (absPath as) p = absPath (as ++ bs) := by
  have hab : ∀ g ∈ as ++ bs, Good g := by
    intro g hg
    rcases List.mem_append.1 hg with hg | hg
    · exact ha g hg
    · exact hb g hg
  unfold localPathOf filepathClean
  rw [hp, filepathJoin_absPath as bs ha hb, pathClean_absPath _ hab]

/-- A rooted cleaned request path that resolves to the root itself is `/`. -/
theorem requestURL_of_localPath_eq_root (R p : Str) (h1 : hasPrefix R ['/'] = true)
    (h2 : filepathClean R = R) (hq : hasPrefix (pathClean p) ['/'] = true)
    (hl : localPathOf R p = R) : pathClean p = ['/'] := by
  obtain ⟨as, ha, hR⟩ := exists_absPath_of_clean R h1 h2
  obtain ⟨bs, hb, hp⟩ := exists_absPath_of_rooted p hq
  have hab : ∀ g ∈ as ++ bs, Good g := by
    intro g hg
    rcases List.mem_append.1 hg with hg | hg
    · exact ha g hg
    · exact hb g hg
  rw [hR, localPathOf_absPath as p bs ha hb hp] at hl
  have := absPath_injective (as ++ bs) as hab ha hl
  have hbs : bs = [] := by simpa using this
  rw [hp, hbs]
  rfl

/-! ## Lemmas on base64 -/

theorem decChar_encChar_fin : ∀ n : Fin 64, decChar (encChar n.val) = some n.val := by decide

theorem encChar_plain_fin : ∀ n : Fin 64,
    encChar n.val ≠ '=' ∧ encChar n.val ≠ Char.ofNat 10 ∧ encChar n.val ≠ Char.ofNat 13 := by
  decide

theorem decChar_encChar (n : Nat) : decChar (encChar (n % 64)) = some (n % 64) :=
  decChar_encChar_fin ⟨n % 64, Nat.mod_lt _ (by decide)⟩

theorem encChar_ne_pad (n : Nat) : encChar (n % 64) ≠ '=' :=
  (encChar_plain_fin ⟨n % 64, Nat.mod_lt _ (by decide)⟩).1

theorem decodeQuanta_encode (C : List Byte) : decodeQuanta (base64Encode C) = some C := by
  induction C using base64Encode.induct with
  | case1 => rfl
  | case2 a =>
    simp only [base64Encode, decodeQuanta, decChar_encChar]
    simp only [if_true, and_self]
    congr 2
    apply Fin.ext
    simp only [toByte]
    omega
  | case3 a b =>
    simp only [base64Encode, decodeQuanta, decChar_encChar, encChar_ne_pad, if_false, if_true]
    congr 2
    · apply Fin.ext
      simp only [toByte]
      omega
    · congr 1
      apply Fin.ext
      simp only [toByte]
      omega
  | case4 a b c rest ih =>
    simp only [base64Encode, decodeQuanta, decChar_encChar, encChar_ne_pad, if_false, ih]
    congr 2
    · apply Fin.ext
      simp only [toByte]
      omega
    · congr 1
      · apply Fin.ext
        simp only [toByte]
        omega
      · congr 1
        apply Fin.ext
        simp only [toByte]
        omega

theorem encChar_not_newline (n : Nat) :
    (encChar (n % 64) != Char.ofNat 10 && encChar (n % 64) != Char.ofNat 13) = true := by
  have h := encChar_plain_fin ⟨n % 64, Nat.mod_lt _ (by decide)⟩
  simp [h.2.1, h.2.2]

theorem pad_not_newline : ('=' != Char.ofNat 10 && '=' != Char.ofNat 13) = true := by decide

theorem base64Encode_no_newline (C : List Byte) :
    ∀ c ∈ base64Encode C, (c != Char.ofNat 10 && c != Char.ofNat 13) = true := by
  induction C using base64Encode.induct with
  | case1 => simp [base64Encode]
  | case2 a =>
    intro c hc
    simp only [base64Encode, List.mem_cons, List.mem_singleton, List.not_mem_nil, or_false] at hc
    rcases hc with h | h | h | h <;> subst h
    · exact encChar_not_newline _
    · exact encChar_not_newline _
    · exact pad_not_newline
    · exact pad_not_newline
  | case3 a b =>
    intro c hc
    simp only [base64Encode, List.mem_cons, List.mem_singleton, List.not_mem_nil, or_false] at hc
    rcases hc with h | h | h | h <;> subst h
    · exact encChar_not_newline _
    · exact encChar_not_newline _
    · exact encChar_not_newline _
    · exact pad_not_newline
  | case4 a b c rest ih =>
    intro d hd
    simp only [base64Encode, List.mem_cons] at hd
    rcases hd with h | h | h | h | h
    · subst h; exact encChar_not_newline _
    · subst h; exact encChar_not_newline _
    · subst h; exact encChar_not_newline _
    · subst h; exact encChar_not_newline _
    · exact ih d h

/-- Decoding undoes encoding. -/
theorem base64Decode_encode (C : List Byte) : base64Decode (base64Encode C) = some C := by
  unfold base64Decode
  rw [List.filter_eq_self.2 (base64Encode_no_newline C)]
  exact decodeQuanta_encode C

/-! ## The statements -/

theorem indexHandler_invalid {σ : Type} (fs : FileSys σ) (R : Str) (r : Request) (s : σ)
    (h : hasPrefix (pathClean r.urlPath) "/".toList = false) :
    indexHandler fs R r s = reply [.int 400, .string "Invalid path".toList] s [] := by
  simp only [indexHandler, h]
  rfl

theorem indexHandler_denied {σ : Type} (fs : FileSys σ) (R : Str) (r : Request) (s : σ)
    (h1 : hasPrefix (pathClean r.urlPath) "/".toList = true)
    (h2 : hasPrefix (filepathClean (filepathJoin [R, pathClean r.urlPath])) R = false) :
    indexHandler fs R r s = reply [.int 403, .string "Access denied".toList] s [] := by
  simp only [indexHandler, h1, h2]
  rfl

/-- C1: `indexHandler` either answers 400 or 403 without any filesystem call, or
the `localPath` it computes has the root as a string prefix; so no handler and no
directory read is reached with a `localPath` lacking that prefix. -/
theorem indexHandler_localPath_confined {σ : Type} (fs : FileSys σ) (R : Str) (r : Request)
    (s : σ) :
    (((indexHandler fs R r s).resp = Response.output ⟨400, "Invalid path".toList, Data.nil⟩ ∨
        (indexHandler fs R r s).resp = Response.output ⟨403, "Access denied".toList, Data.nil⟩) ∧
      (indexHandler fs R r s).calls = []) ∨
    hasPrefix (filepathClean (filepathJoin [R, pathClean r.urlPath])) R = true := by
  cases h1 : hasPrefix (pathClean r.urlPath) "/".toList with
  | false =>
    left
    rw [indexHandler_invalid fs R r s h1]
    exact ⟨Or.inl rfl, rfl⟩
  | true =>
    cases h2 : hasPrefix (filepathClean (filepathJoin [R, pathClean r.urlPath])) R with
    | false =>
      left
      rw [indexHandler_denied fs R r s h1 h2]
      exact ⟨Or.inr rfl, rfl⟩
    | true => exact Or.inr rfl

/-- C4 fails as stated: the lower-case method `get` is none of `GET`, `POST`, `PUT`,
`DELETE`, and it is dispatched to `getHandler`, not answered with 405. -/
theorem dispatch_get_lowercase :
    "get".toList ∉ ["GET".toList, "POST".toList, "PUT".toList, "DELETE".toList] ∧
      dispatch "get".toList false = Action.call Handler.get ∧
      dispatch "get".toList true = Action.call Handler.get := by
  decide

theorem lookup_functionMap (k : Str) :
    functionMap.lookup k =
      if k = "get".toList then some Handler.get
      else if k = "post".toList then some Handler.post
      else if k = "put".toList then some Handler.put
      else if k = "delete".toList then some Handler.delete
      else none := by
  by_cases h1 : k = "get".toList
  · subst h1; decide
  · by_cases h2 : k = "post".toList
    · subst h2; decide
    · by_cases h3 : k = "put".toList
      · subst h3; decide
      · by_cases h4 : k = "delete".toList
        · subst h4; decide
        · simp only [functionMap, List.lookup, beq_eq_false_iff_ne.2 h1, beq_eq_false_iff_ne.2 h2,
            beq_eq_false_iff_ne.2 h3, beq_eq_false_iff_ne.2 h4, h1, h2, h3, h4, if_false]

/-- C4, amended: the dispatch is a total function of the method and of whether the
target is a folder; it lists exactly for a folder and the method `GET`, calls the
handler registered under the lower-cased method otherwise, and answers 405
exactly when the lower-cased method is none of `get`, `post`, `put`, `delete`. -/
theorem dispatch_characterisation (m : Str) (d : Bool) :
    (dispatch m d = Action.list ↔ (d = true ∧ m = "GET".toList)) ∧
    (dispatch m d = Action.call Handler.get ↔
      (toLower m = "get".toList ∧ ¬ (d = true ∧ m = "GET".toList))) ∧
    (dispatch m d = Action.call Handler.post ↔ toLower m = "post".toList) ∧
    (dispatch m d = Action.call Handler.put ↔ toLower m = "put".toList) ∧
    (dispatch m d = Action.call Handler.delete ↔ toLower m = "delete".toList) ∧
    (dispatch m d = Action.methodNotAllowed ↔
      toLower m ∉ ["get".toList, "post".toList, "put".toList, "delete".toList]) := by
  by_cases hl : d = true ∧ m = "GET".toList
  · obtain ⟨hd, hm⟩ := hl
    subst hd hm
    decide
  · have hg : (!d || decide (m ≠ "GET".toList)) = true := by
      cases d <;> simp_all
    simp only [dispatch, hg, if_true, hl, not_false_eq_true, and_true, lookup_functionMap,
      List.mem_cons, List.mem_singleton, List.not_mem_nil, or_false]
    by_cases h1 : toLower m = "get".toList
    · rw [h1]; decide
    · by_cases h2 : toLower m = "post".toList
      · rw [h2]; decide
      · by_cases h3 : toLower m = "put".toList
        · rw [h3]; decide
        · by_cases h4 : toLower m = "delete".toList
          · rw [h4]; decide
          · simp only [h1, h2, h3, h4, if_false, or_self, not_false_eq_true, iff_true,
              reduceCtorEq, iff_false, not_true_eq_false, and_self]

theorem foldl_listStep (u : Str) (es : List DirEntry) (files folders : List FileInfo) :
    es.foldl (listStep u) (files, folders) =
      (files ++ (es.filterMap (entryItem u)).filter (fun f => !f.IsDir),
        folders ++ (es.filterMap (entryItem u)).filter (fun f => f.IsDir)) := by
  induction es generalizing files folders with
  | nil => simp
  | cons e es ih =>
    rw [List.foldl_cons]
    cases hi : e.info with
    | none => simp [listStep, hi, ih, entryItem]
    | some i =>
      obtain ⟨size, modTime⟩ := i
      cases hd : e.isDir with
      | true => simp [listStep, hi, hd, ih, entryItem]
      | false => simp [listStep, hi, hd, ih, entryItem]

theorem length_filterMap_entryItem (u : Str) (es : List DirEntry) :
    (es.filterMap (entryItem u)).length = es.countP (fun e => e.info.isSome) := by
  induction es with
  | nil => rfl
  | cons e es ih =>
    cases hi : e.info with
    | none => simp [List.filterMap_cons, entryItem, hi, List.countP_cons, ih]
    | some i => simp [List.filterMap_cons, entryItem, hi, List.countP_cons, ih]

/-- C7: the `Files` of a listing are the entries of the children whose `Info()`
succeeded, the directories first and then the files, each group in the order
of the directory read; so no file comes before a directory, and the length is
the number of children whose `Info()` succeeded. -/
theorem listFiles_folders_first (u : Str) (es : List DirEntry) :
    listFiles u es =
        (es.filterMap (entryItem u)).filter (fun f => f.IsDir) ++
          (es.filterMap (entryItem u)).filter (fun f => !f.IsDir) ∧
      (listFiles u es).Pairwise (fun a b => b.IsDir = true → a.IsDir = true) ∧
      (listFiles u es).length = es.countP (fun e => e.info.isSome) := by
  have h : listFiles u es =
      (es.filterMap (entryItem u)).filter (fun f => f.IsDir) ++
        (es.filterMap (entryItem u)).filter (fun f => !f.IsDir) := by
    simp [listFiles, foldl_listStep]
  refine ⟨h, ?_, ?_⟩
  · rw [h, List.pairwise_append]
    refine ⟨?_, ?_, ?_⟩
    · rw [List.Pairwise.imp_mem]
      apply List.pairwise_of_forall
      intro a b ha _ _
      simpa using (List.mem_filter.1 ha).2
    · rw [List.Pairwise.imp_mem]
      apply List.pairwise_of_forall
      intro a b _ hb hB
      have := (List.mem_filter.1 hb).2
      simp [hB] at this
    · intro a ha b _ _
      simpa using (List.mem_filter.1 ha).2
  · rw [h, List.length_append]
    have hlen : ∀ l : List FileInfo,
        (l.filter (fun f => f.IsDir)).length + (l.filter (fun f => !f.IsDir)).length = l.length := by
      intro l
      induction l with
      | nil => rfl
      | cons x xs ih =>
        cases hx : x.IsDir <;> simp [List.filter_cons, hx] <;> omega
    rw [hlen, length_filterMap_entryItem]

theorem lookup_foldl_form_of_not_mem (form : List (Str × FormValues)) (acc : Params) (k : Str)
    (hk : k ∉ form.map Prod.fst) :
    List.lookup k (form.foldl (fun acc kv => (kv.1, JVal.str kv.2.first) :: acc) acc) =
      List.lookup k acc := by
  induction form generalizing acc with
  | nil => rfl
  | cons kv rest ih =>
    simp only [List.map_cons, List.mem_cons, not_or] at hk
    rw [List.foldl_cons, ih _ hk.2]
    have hne : (k == kv.1) = false := beq_eq_false_iff_ne.2 hk.1
    simp [List.lookup, hne]

theorem lookup_foldl_form_of_mem (form : List (Str × FormValues)) (acc : Params) (k : Str)
    (v : FormValues) (hk : (k, v) ∈ form) (hnd : (form.map Prod.fst).Nodup) :
    List.lookup k (form.foldl (fun acc kv => (kv.1, JVal.str kv.2.first) :: acc) acc) =
      some (JVal.str v.first) := by
  induction form generalizing acc with
  | nil => simp at hk
  | cons kv rest ih =>
    simp only [List.map_cons, List.nodup_cons] at hnd
    rw [List.foldl_cons]
    rcases List.mem_cons.1 hk with h | h
    · subst h
      rw [lookup_foldl_form_of_not_mem rest _ k hnd.1]
      simp [List.lookup]
    · exact ih _ h hnd.2

/-- C8 fails as stated: for the body `\x7b"a":"J"\x7d` and the form field `a=F` the
parameter `a` is `F`, the value of the form, not the value `J` of the JSON body. -/
theorem HttpInput_json_overridden :
    overlapRequest.json = some [("a".toList, JVal.str "J".toList)] ∧
      overlapRequest.form = some [("a".toList, { first := "F".toList, rest := [] })] ∧
      (HttpInput overlapRequest).map (fun params => params.lookup "a".toList) =
        some (some (JVal.str "F".toList)) ∧
      JVal.str "F".toList ≠ JVal.str "J".toList := by
  decide

/-- C8, amended: when the body is read, its JSON object parsed and the form parsed,
`HttpInput` returns a map that holds, for every key of the form (also one that
is a member of the JSON object), the first value of the form field: the form
field takes precedence over the JSON member with the same key. -/
theorem HttpInput_form_precedence (r : Request) (b : Str) (js : Params)
    (form : List (Str × FormValues)) (k : Str) (v : FormValues)
    (hb : r.body = some b) (hj : r.json = some js) (hf : r.form = some form)
    (hk : (k, v) ∈ form) (hnd : (form.map Prod.fst).Nodup) :
    ∃ params, HttpInput r = some params ∧ params.lookup k = some (JVal.str v.first) := by
  unfold HttpInput
  simp only [hb, hj, hf]
  cases (hasPrefix (trimSpace b) [Char.ofNat 123] && hasSuffix (trimSpace b) [Char.ofNat 125]) with
  | true => exact ⟨_, rfl, lookup_foldl_form_of_mem form _ k v hk hnd⟩
  | false => exact ⟨_, rfl, lookup_foldl_form_of_mem form _ k v hk hnd⟩

/-- The amended C8 at the request with the JSON member `a` = `J` and the form field
`a` = `F`. -/
theorem HttpInput_form_precedence_witness :
    ∃ params, HttpInput overlapRequest = some params ∧
      params.lookup "a".toList = some (JVal.str "F".toList) :=
  HttpInput_form_precedence overlapRequest "\x7b\"a\":\"J\"\x7d".toList
    [("a".toList, JVal.str "J".toList)] [("a".toList, { first := "F".toList, rest := [] })]
    "a".toList { first := "F".toList, rest := [] } rfl rfl rfl (by decide) (by decide)

/-- C9 (defect): a `HEAD` request is dispatched to no handler, whether or not the
target is a folder, and the request `HEAD /a.txt` for an existing file is
answered with 405 instead of the download headers. -/
theorem head_not_allowed :
    (∀ d, dispatch "HEAD".toList d = Action.methodNotAllowed) ∧
      (indexHandler memFS exampleRoot (bodyless "HEAD" "/a.txt" false) exampleFS).resp =
        Response.output ⟨405, "Method not allowed".toList, Data.nil⟩ := by
  decide

/-- C10 (defect): the listing of the request path `/` has the parent path `/`,
not the empty string. -/
theorem root_listing_parentPath :
    (∀ entries, (pageData "/".toList entries).ParentPath = "/".toList) ∧
      (indexHandler memFS exampleRoot (bodyless "GET" "/" true) exampleFS).resp =
        Response.output ⟨200, "OK".toList, Data.page
          { CurrentPath := "/".toList, ParentPath := "/".toList,
            Files := [{ Name := "a.txt".toList, Path := "/a.txt".toList, Size := 2,
                        ModTime := 0, IsDir := false }] }⟩ := by
  refine ⟨?_, by decide⟩
  intro entries
  show parentPathOf "/".toList = "/".toList
  decide

/-- C2 (defect): with the root `/srv/data`, the request `PUT /a.txt` with `act=move`
and `dst=../data-evil/x` resolves the destination to `/srv/data-evil/x`, which
is neither the root nor below it, and is not answered with 403: the directory
`/srv/data-evil` is created and the file is moved there. -/
theorem put_sibling_prefix_escapes :
    filepathJoin [filepathDir (localPathOf exampleRoot "/a.txt".toList),
        filepathClean "../data-evil/x".toList] = "/srv/data-evil/x".toList ∧
      "/srv/data-evil/x".toList ≠ exampleRoot ∧
      hasPrefix "/srv/data-evil/x".toList (exampleRoot ++ "/".toList) = false ∧
      (indexHandler memFS exampleRoot
          (jsonRequest "PUT" "/a.txt" "\x7b\"act\":\"move\",\"dst\":\"../data-evil/x\"\x7d"
            [("act", "move"), ("dst", "../data-evil/x")])
          exampleFS).resp = Response.output ⟨200, "OK".toList, Data.nil⟩ ∧
      (indexHandler memFS exampleRoot
          (jsonRequest "PUT" "/a.txt" "\x7b\"act\":\"move\",\"dst\":\"../data-evil/x\"\x7d"
            [("act", "move"), ("dst", "../data-evil/x")])
          exampleFS).calls =
        [FsCall.stat "/srv/data/a.txt".toList, FsCall.stat "/srv/data/a.txt".toList,
         FsCall.mkdirAll "/srv/data-evil".toList,
         FsCall.rename "/srv/data/a.txt".toList "/srv/data-evil/x".toList] ∧
      MemFS.get (indexHandler memFS exampleRoot
          (jsonRequest "PUT" "/a.txt" "\x7b\"act\":\"move\",\"dst\":\"../data-evil/x\"\x7d"
            [("act", "move"), ("dst", "../data-evil/x")])
          exampleFS).state "/srv/data-evil/x".toList = some (Node.file [toByte 104, toByte 105]) := by
  decide

/-- C5 (defect): the JSON-mode request `POST /` with `filename=sub/`, which ends in
a separator, is not rejected: the file `/srv/data/sub` is written. -/
theorem post_trailing_separator_written :
    hasSuffix "sub/".toList "/".toList = true ∧
      (indexHandler memFS exampleRoot
          (jsonRequest "POST" "/" "\x7b\"filename\":\"sub/\",\"content\":\"aGk=\"\x7d"
            [("filename", "sub/"), ("content", "aGk=")])
          exampleFS).resp = Response.output ⟨200, "OK".toList, Data.nil⟩ ∧
      (indexHandler memFS exampleRoot
          (jsonRequest "POST" "/" "\x7b\"filename\":\"sub/\",\"content\":\"aGk=\"\x7d"
            [("filename", "sub/"), ("content", "aGk=")])
          exampleFS).calls =
        [FsCall.mkdirAll "/srv/data".toList, FsCall.writeFile "/srv/data/sub".toList] ∧
      MemFS.get (indexHandler memFS exampleRoot
          (jsonRequest "POST" "/" "\x7b\"filename\":\"sub/\",\"content\":\"aGk=\"\x7d"
            [("filename", "sub/"), ("content", "aGk=")])
          exampleFS).state "/srv/data/sub".toList = some (Node.file [toByte 104, toByte 105]) := by
  decide

theorem hasPrefix_self (s : Str) : hasPrefix s s = true := by
  induction s with
  | nil => rfl
  | cons c cs ih => simp [hasPrefix, ih]

theorem dispatch_delete (m : Str) (d : Bool) (h : toLower m = "delete".toList) :
    dispatch m d = Action.call Handler.delete := by
  have hm : m ≠ "GET".toList := by
    intro e
    subst e
    exact absurd h (by decide)
  have hg : (!d || decide (m ≠ "GET".toList)) = true := by
    rw [decide_eq_true hm, Bool.or_true]
  simp only [dispatch, hg, if_true, lookup_functionMap, h]
  decide

theorem deleteHandler_root {σ : Type} (fs : FileSys σ) (ctx : Ctx) (s : σ)
    (h : ctx.requestURL = "/".toList) :
    deleteHandler fs ctx s = reply [.int 403, .string "Forbbidden".toList] s [] := by
  simp only [deleteHandler, h, if_true]

theorem deleteHandler_remove {σ : Type} (fs : FileSys σ) (ctx : Ctx) (s : σ) (q : Str)
    (h : FsCall.remove q ∈ (deleteHandler fs ctx s).calls) :
    q = ctx.localPath ∧ ctx.requestURL ≠ "/".toList := by
  unfold deleteHandler at h
  by_cases h1 : ctx.requestURL = "/".toList
  · simp [h1, reply] at h
  · simp only [h1, if_false] at h
    refine ⟨?_, h1⟩
    cases h2 : Exist fs s ctx.localPath with
    | false => simp [h2, reply] at h
    | true =>
      simp only [h2, Bool.not_true] at h
      cases h3 : fs.remove s ctx.localPath with
      | mk s1 ok =>
        cases ok <;> simp [h3, reply] at h <;> exact h

/-- The context `indexHandler` sets up for a request. -/
theorem indexHandler_delete {σ : Type} (fs : FileSys σ) (R : Str) (r : Request) (s : σ)
    (h1 : hasPrefix (pathClean r.urlPath) "/".toList = true)
    (h2 : hasPrefix (localPathOf R r.urlPath) R = true)
    (hm : toLower r.method = "delete".toList) :
    (hasSuffix (pathClean r.urlPath) "/".toList = true ∧
      indexHandler fs R r s =
        (deleteHandler fs
          { rootDir := R, workDir := localPathOf R r.urlPath, requestURL := pathClean r.urlPath,
            localPath := localPathOf R r.urlPath, isFolder := true } s).after []) ∨
    (hasSuffix (pathClean r.urlPath) "/".toList = false ∧
      ((indexHandler fs R r s).calls = [FsCall.stat (localPathOf R r.urlPath)] ∨
        ∃ d, indexHandler fs R r s =
          (deleteHandler fs
            { rootDir := R,
              workDir := if d = true then localPathOf R r.urlPath
                         else filepathDir (localPathOf R r.urlPath),
              requestURL := pathClean r.urlPath,
              localPath := localPathOf R r.urlPath, isFolder := d } s).after
            [FsCall.stat (localPathOf R r.urlPath)])) := by
  unfold localPathOf at h2 ⊢
  cases h3 : hasSuffix (pathClean r.urlPath) "/".toList with
  | true =>
    left
    refine ⟨rfl, ?_⟩
    simp only [indexHandler, h1, h2, h3, dispatch_delete _ _ hm]
    rfl
  | false =>
    right
    refine ⟨rfl, ?_⟩
    cases h4 : IsDir fs s (filepathClean (filepathJoin [R, pathClean r.urlPath])) with
    | none =>
      left
      simp only [indexHandler, h1, h2, h3, h4]
      rfl
    | some d =>
      right
      refine ⟨d, ?_⟩
      simp only [indexHandler, h1, h2, h3, h4, dispatch_delete _ _ hm]
      rfl

/-- C3: for a root that is an absolute cleaned path and a request whose method is
`DELETE` (in any letter case), served on its own: when the URL path normalises
to `/` the resolved `localPath` is the root, the answer is 403 and no filesystem
call is made, so `os.Remove` is not called; a URL path whose cleaned form starts
with a slash resolves to the root only if it normalises to `/`, so the same
holds whenever `localPath` equals the root; and `os.Remove` is only ever called
on a path different from the root. -/
theorem delete_never_removes_root {σ : Type} (fs : FileSys σ) (R : Str) (r : Request) (s : σ)
    (hR1 : hasPrefix R "/".toList = true) (hR2 : filepathClean R = R)
    (hm : toLower r.method = "delete".toList) :
    (pathClean r.urlPath = "/".toList →
      localPathOf R r.urlPath = R ∧
        (indexHandler fs R r s).resp = Response.output ⟨403, "Forbbidden".toList, Data.nil⟩ ∧
        (indexHandler fs R r s).calls = []) ∧
    (hasPrefix (pathClean r.urlPath) "/".toList = true → localPathOf R r.urlPath = R →
      pathClean r.urlPath = "/".toList ∧
        (indexHandler fs R r s).resp = Response.output ⟨403, "Forbbidden".toList, Data.nil⟩ ∧
        (indexHandler fs R r s).calls = []) ∧
    (∀ q, FsCall.remove q ∈ (indexHandler fs R r s).calls → q ≠ R) := by
  have root403 : pathClean r.urlPath = "/".toList → localPathOf R r.urlPath = R →
      (indexHandler fs R r s).resp = Response.output ⟨403, "Forbbidden".toList, Data.nil⟩ ∧
        (indexHandler fs R r s).calls = [] := by
    intro hq hl
    have h1 : hasPrefix (pathClean r.urlPath) "/".toList = true := by
      rw [hq]
      decide
    have h2 : hasPrefix (localPathOf R r.urlPath) R = true := by
      rw [hl]
      exact hasPrefix_self R
    rcases indexHandler_delete fs R r s h1 h2 hm with ⟨_, he⟩ | ⟨h3, _⟩
    · rw [he, deleteHandler_root fs _ s hq]
      exact ⟨rfl, rfl⟩
    · rw [hq] at h3
      exact absurd h3 (by decide)
  refine ⟨?_, ?_, ?_⟩
  · intro hq
    obtain ⟨as, ha, hR⟩ := exists_absPath_of_clean R hR1 hR2
    have hl : localPathOf R r.urlPath = R := by
      rw [hR, localPathOf_absPath as r.urlPath [] ha (by simp) (by rw [hq]; rfl)]
      simp
    exact ⟨hl, root403 hq hl⟩
  · intro h1 hl
    have hq : pathClean r.urlPath = "/".toList :=
      requestURL_of_localPath_eq_root R r.urlPath hR1 hR2 h1 hl
    exact ⟨hq, root403 hq hl⟩
  · intro q hq hqR
    subst hqR
    cases h1 : hasPrefix (pathClean r.urlPath) "/".toList with
    | false =>
      rw [indexHandler_invalid fs q r s h1] at hq
      simp [reply] at hq
    | true =>
      cases h2 : hasPrefix (localPathOf q r.urlPath) q with
      | false =>
        rw [indexHandler_denied fs q r s h1 h2] at hq
        simp [reply] at hq
      | true =>
        have key : ∀ ctx : Ctx, ctx.localPath = localPathOf q r.urlPath →
            ctx.requestURL = pathClean r.urlPath →
            FsCall.remove q ∈ (deleteHandler fs ctx s).calls → False := by
          intro ctx hc1 hc2 hmem
          obtain ⟨e1, e2⟩ := deleteHandler_remove fs ctx s q hmem
          rw [hc1] at e1
          rw [hc2] at e2
          exact e2 (requestURL_of_localPath_eq_root q r.urlPath hR1 hR2 h1 e1.symm)
        rcases indexHandler_delete fs q r s h1 h2 hm with ⟨_, he⟩ | ⟨_, he | ⟨d, he⟩⟩
        · rw [he] at hq
          simp only [Outcome.after, List.nil_append] at hq
          exact key _ rfl rfl hq
        · rw [he] at hq
          simp at hq
        · rw [he] at hq
          simp only [Outcome.after, List.singleton_append, List.mem_cons, reduceCtorEq,
            false_or] at hq
          exact key _ rfl rfl hq

/-- C3 at the root `/srv/data` and the request `DELETE /`. -/
theorem delete_never_removes_root_witness :
    (hasPrefix exampleRoot "/".toList = true ∧ filepathClean exampleRoot = exampleRoot ∧
      toLower (bodyless "DELETE" "/" true).method = "delete".toList ∧
      pathClean (bodyless "DELETE" "/" true).urlPath = "/".toList) ∧
    (localPathOf exampleRoot (bodyless "DELETE" "/" true).urlPath = exampleRoot ∧
      (indexHandler memFS exampleRoot (bodyless "DELETE" "/" true) exampleFS).resp =
        Response.output ⟨403, "Forbbidden".toList, Data.nil⟩ ∧
      (indexHandler memFS exampleRoot (bodyless "DELETE" "/" true) exampleFS).calls = []) :=
  ⟨⟨by decide, by decide, by decide, by decide⟩,
    (delete_never_removes_root memFS exampleRoot (bodyless "DELETE" "/" true) exampleFS
      (by decide) (by decide) (by decide)).1 (by decide)⟩

theorem MemFS.get_set_self (m : MemFS) (p : Str) (n : Node) :
    MemFS.get (MemFS.set m p n) p = some n := by
  simp [MemFS.get, MemFS.set, List.lookup]

theorem MemFS.writeFile_ok (m m2 : MemFS) (p : Str) (bytes : List Byte)
    (h : MemFS.writeFile m p bytes = (m2, true)) : MemFS.get m2 p = some (Node.file bytes) := by
  unfold MemFS.writeFile at h
  split at h
  · simp only [Prod.mk.injEq, and_true] at h
    rw [← h]
    exact MemFS.get_set_self m p _
  · simp at h

theorem respCode_reply {σ : Type} (n : Nat) (msg : Str) (s : σ) (calls : List FsCall) :
    respCode (reply [.int n, .string msg] s calls).resp = some n := rfl

/-- A successful JSON-mode `postHandler` has passed the access check and has
stored the decoded content at the destination. -/
theorem postHandler_ok (ctx : Ctx) (post : Request) (s : MemFS) (params : Params) (D : Str)
    (C : List Byte) (hj : post.returnJSON = true) (hp : HttpInput post = some params)
    (hf : params.lookup "filename".toList = some (JVal.str D))
    (hc : params.lookup "content".toList = some (JVal.str (base64Encode C)))
    (hok : respCode (postHandler memFS ctx post s).resp = some 200) :
    hasSuffix (filepathClean D) "/".toList = false ∧
      hasPrefix (filepathJoin [ctx.workDir, filepathClean D]) ctx.rootDir = true ∧
      MemFS.get (postHandler memFS ctx post s).state (filepathJoin [ctx.workDir, filepathClean D]) =
        some (Node.file C) ∧
      (∀ q, FsCall.writeFile q ∈ (postHandler memFS ctx post s).calls →
        q = filepathJoin [ctx.workDir, filepathClean D]) := by
  unfold postHandler at hok ⊢
  simp only [hj, if_true, hp, hf, Option.getD_some, hc, base64Decode_encode] at hok ⊢
  cases h1 : hasSuffix (filepathClean D) "/".toList with
  | true =>
    simp only [h1, Bool.true_or, if_true, respCode_reply] at hok
    exact absurd hok (by decide)
  | false =>
    cases h2 : hasPrefix (filepathJoin [ctx.workDir, filepathClean D]) ctx.rootDir with
    | false =>
      simp only [h1, h2, Bool.false_or, Bool.not_false, if_true, respCode_reply] at hok
      exact absurd hok (by decide)
    | true =>
      refine ⟨rfl, rfl, ?_⟩
      simp only [h1, h2, Bool.false_or, Bool.not_true, Bool.false_eq_true, if_false] at hok ⊢
      cases h3 : memFS.mkdirAll s (filepathDir (filepathJoin [ctx.workDir, filepathClean D])) with
      | mk s1 ok1 =>
        cases ok1 with
        | false =>
          simp only [h3, respCode_reply] at hok
          exact absurd hok (by decide)
        | true =>
          simp only [h3] at hok ⊢
          cases h4 : memFS.writeFile s1 (filepathJoin [ctx.workDir, filepathClean D]) C with
          | mk s2 ok2 =>
            cases ok2 with
            | false =>
              simp only [h4, respCode_reply] at hok
              exact absurd hok (by decide)
            | true =>
              simp only [h4]
              refine ⟨MemFS.writeFile_ok s1 s2 _ C h4, ?_⟩
              intro q hq
              simpa [reply] using hq

/-- A JSON-mode `GET` of a path that is a file answers with its content in base64. -/
theorem indexHandler_get_file (R : Str) (get : Request) (s : MemFS) (C : List Byte)
    (hg1 : get.method = "GET".toList) (hg3 : get.returnJSON = true)
    (h1 : hasPrefix (pathClean get.urlPath) "/".toList = true)
    (h2 : hasPrefix (localPathOf R get.urlPath) R = true)
    (h3 : hasSuffix (pathClean get.urlPath) "/".toList = false)
    (hfile : MemFS.get s (localPathOf R get.urlPath) = some (Node.file C)) :
    (indexHandler memFS R get s).resp =
      Response.output ⟨200, "OK".toList, Data.content (base64Encode C)⟩ := by
  unfold localPathOf at h2 hfile
  have hd : IsDir memFS s (filepathClean (filepathJoin [R, pathClean get.urlPath])) = some false := by
    simp only [IsDir, memFS, MemFS.stat, hfile]
  have hdisp : dispatch get.method false = Action.call Handler.get := by
    rw [hg1]
    decide
  have hopen : memFS.osOpen s (filepathClean (filepathJoin [R, pathClean get.urlPath])) =
      OpenResult.opened (some (false, (C.length : Int))) := by
    simp only [memFS, MemFS.osOpen, hfile]
  have hread : memFS.readFile s (filepathClean (filepathJoin [R, pathClean get.urlPath])) =
      some C := by
    simp only [memFS, MemFS.readFile, hfile]
  simp only [indexHandler, h1, h2, h3, hd, Bool.not_true, Bool.false_eq_true, if_false, if_true,
    hdisp, runHandler, getHandler, hopen, hread, hg3]
  rfl

/-- A request to `/` whose method is `POST` is served by `postHandler` with the
root as working directory. -/
theorem indexHandler_post_root {σ : Type} (fs : FileSys σ) (as : List Str) (post : Request)
    (s : σ) (ha : ∀ g ∈ as, Good g) (hp1 : post.method = "POST".toList)
    (hp2 : post.urlPath = "/".toList) :
    indexHandler fs (absPath as) post s =
      (postHandler fs
        { rootDir := absPath as, workDir := absPath as, requestURL := "/".toList,
          localPath := absPath as, isFolder := true } post s).after [] := by
  have hq : pathClean "/".toList = "/".toList := by decide
  have hl : filepathClean (filepathJoin [absPath as, "/".toList]) = absPath as := by
    have := localPathOf_absPath as "/".toList [] ha (by simp) (by decide)
    simpa [localPathOf, hq] using this
  have hdisp : dispatch "POST".toList true = Action.call Handler.post := by decide
  have h1 : hasPrefix "/".toList "/".toList = true := by decide
  have h3 : hasSuffix "/".toList "/".toList = true := by decide
  simp only [indexHandler, hp1, hp2, hq, hl, h1, h3, hasPrefix_self, Bool.not_true,
    Bool.false_eq_true, if_false, if_true, hdisp, runHandler]

/-- When the upload is sent to `/`, the file is stored at the filename itself: over
the in-memory filesystem, for a root that is an absolute cleaned path, every
byte string `C` and every filename `D` starting with a slash, when a JSON-mode
`POST` to `/` carrying `filename` = `D` and `content` = base64 of `C` succeeds,
the JSON-mode `GET` of `D` that follows answers 200 with the `content` base64 of
`C`, and decoding that content gives back `C`. -/
theorem upload_download_at_root (R : Str) (s : MemFS) (post get : Request) (params : Params)
    (D : Str) (C : List Byte)
    (hR1 : hasPrefix R "/".toList = true) (hR2 : filepathClean R = R)
    (hD : hasPrefix D "/".toList = true)
    (hp1 : post.method = "POST".toList) (hp2 : post.urlPath = "/".toList)
    (hp3 : post.returnJSON = true) (hp4 : HttpInput post = some params)
    (hp5 : params.lookup "filename".toList = some (JVal.str D))
    (hp6 : params.lookup "content".toList = some (JVal.str (base64Encode C)))
    (hok : (indexHandler memFS R post s).resp = Response.output ⟨200, "OK".toList, Data.nil⟩)
    (hg1 : get.method = "GET".toList) (hg2 : get.urlPath = D) (hg3 : get.returnJSON = true) :
    (indexHandler memFS R get (indexHandler memFS R post s).state).resp =
        Response.output ⟨200, "OK".toList, Data.content (base64Encode C)⟩ ∧
      base64Decode (base64Encode C) = some C := by
  refine ⟨?_, base64Decode_encode C⟩
  obtain ⟨as, ha, hR⟩ := exists_absPath_of_clean R hR1 hR2
  have hDr : hasPrefix (pathClean D) "/".toList = true := by
    rw [pathClean_rooted D ((hasPrefix_slash_iff D).1 hD)]
    exact (hasPrefix_slash_iff _).2 rfl
  obtain ⟨bs, hb, hDc⟩ := exists_absPath_of_rooted D hDr
  have hab : ∀ g ∈ as ++ bs, Good g := by
    intro g hg
    rcases List.mem_append.1 hg with hg | hg
    · exact ha g hg
    · exact hb g hg
  subst hR
  have he := indexHandler_post_root memFS as post s ha hp1 hp2
  rw [he] at hok ⊢
  have hcode : respCode (postHandler memFS
      { rootDir := absPath as, workDir := absPath as, requestURL := "/".toList,
        localPath := absPath as, isFolder := true } post s).resp = some 200 := by
    have := congrArg respCode hok
    simpa [Outcome.after] using this
  obtain ⟨hsuf, hpre, hfile, _⟩ := postHandler_ok _ post s params D C hp3 hp4 hp5 hp6 hcode
  have hdst : filepathJoin [absPath as, filepathClean D] = localPathOf (absPath as) get.urlPath := by
    rw [hg2, localPathOf_absPath as D bs ha hb hDc]
    show filepathJoin [absPath as, pathClean D] = _
    rw [hDc, filepathJoin_absPath as bs ha hb]
  simp only [hdst] at hpre hfile
  exact indexHandler_get_file (absPath as) get _ C hg1 hg3 (by rw [hg2]; exact hDr) hpre
    (by rw [hg2]; exact hsuf) hfile


/-! ## Conformance of the library models with the documented behaviour -/

/-- The model of `path.Clean` on the cases of the test table of the Go library. -/
theorem pathClean_conformance :
    pathClean "".toList = ".".toList ∧ pathClean "abc".toList = "abc".toList ∧
    pathClean "a/b/c".toList = "a/b/c".toList ∧ pathClean ".".toList = ".".toList ∧
    pathClean "..".toList = "..".toList ∧ pathClean "../..".toList = "../..".toList ∧
    pathClean "../../abc".toList = "../../abc".toList ∧ pathClean "/abc".toList = "/abc".toList ∧
    pathClean "/".toList = "/".toList ∧ pathClean "abc/".toList = "abc".toList ∧
    pathClean "a/b/c/".toList = "a/b/c".toList ∧ pathClean "./".toList = ".".toList ∧
    pathClean "../".toList = "..".toList ∧ pathClean "../../".toList = "../..".toList ∧
    pathClean "/abc/".toList = "/abc".toList ∧
    pathClean "abc//def//ghi".toList = "abc/def/ghi".toList ∧
    pathClean "//abc".toList = "/abc".toList ∧ pathClean "///abc".toList = "/abc".toList ∧
    pathClean "//abc//".toList = "/abc".toList ∧ pathClean "abc//".toList = "abc".toList ∧
    pathClean "abc/./def".toList = "abc/def".toList ∧
    pathClean "/./abc/def".toList = "/abc/def".toList ∧ pathClean "abc/.".toList = "abc".toList ∧
    pathClean "abc/def/ghi/../jkl".toList = "abc/def/jkl".toList ∧
    pathClean "abc/def/../ghi/../jkl".toList = "abc/jkl".toList ∧
    pathClean "abc/def/..".toList = "abc".toList ∧ pathClean "abc/def/../..".toList = ".".toList ∧
    pathClean "/abc/def/../..".toList = "/".toList ∧
    pathClean "abc/def/../../..".toList = "..".toList ∧
    pathClean "/abc/def/../../..".toList = "/".toList ∧
    pathClean "abc/def/../../../ghi/jkl/../../../mno".toList = "../../mno".toList ∧
    pathClean "abc/./../def".toList = "def".toList ∧
    pathClean "abc//./../def".toList = "def".toList ∧
    pathClean "abc/../../././../def".toList = "../../def".toList := by
  decide

/-- The models of `filepath.Join`, `filepath.Dir` and `filepath.Base` on documented cases. -/
theorem filepath_conformance :
    filepathJoin ["a".toList, "b".toList] = "a/b".toList ∧
    filepathJoin ["a".toList, "".toList] = "a".toList ∧
    filepathJoin ["".toList, "b".toList] = "b".toList ∧
    filepathJoin ["".toList, "".toList] = "".toList ∧
    filepathJoin ["/".toList, "a".toList] = "/a".toList ∧
    filepathJoin ["a/".toList, "b".toList] = "a/b".toList ∧
    filepathJoin ["a".toList, "../b".toList] = "b".toList ∧
    filepathDir "".toList = ".".toList ∧ filepathDir ".".toList = ".".toList ∧
    filepathDir "/.".toList = "/".toList ∧ filepathDir "/".toList = "/".toList ∧
    filepathDir "/foo".toList = "/".toList ∧ filepathDir "x/".toList = "x".toList ∧
    filepathDir "abc".toList = ".".toList ∧ filepathDir "abc/def".toList = "abc".toList ∧
    filepathDir "a/b/.x".toList = "a/b".toList ∧ filepathDir "a/b/c.".toList = "a/b".toList ∧
    filepathDir "a/b/c.x".toList = "a/b".toList ∧
    filepathBase "".toList = ".".toList ∧ filepathBase ".".toList = ".".toList ∧
    filepathBase "/.".toList = ".".toList ∧ filepathBase "/".toList = "/".toList ∧
    filepathBase "////".toList = "/".toList ∧ filepathBase "x/".toList = "x".toList ∧
    filepathBase "abc".toList = "abc".toList ∧ filepathBase "abc/def".toList = "def".toList ∧
    filepathBase "a/b/.x".toList = ".x".toList ∧ filepathBase "a/b/c.".toList = "c.".toList ∧
    filepathBase "a/b/c.x".toList = "c.x".toList := by
  decide

/-- The model of base64 on the test vectors of RFC 4648. -/
theorem base64_conformance :
    base64Encode [] = "".toList ∧
    base64Encode [toByte 102] = "Zg==".toList ∧
    base64Encode [toByte 102, toByte 111] = "Zm8=".toList ∧
    base64Encode [toByte 102, toByte 111, toByte 111] = "Zm9v".toList ∧
    base64Encode [toByte 102, toByte 111, toByte 111, toByte 98] = "Zm9vYg==".toList ∧
    base64Encode [toByte 102, toByte 111, toByte 111, toByte 98, toByte 97] = "Zm9vYmE=".toList ∧
    base64Decode "Zm9vYmFy".toList =
      some [toByte 102, toByte 111, toByte 111, toByte 98, toByte 97, toByte 114] ∧
    base64Decode "Zm9v\nYmFy\r\n".toList =
      some [toByte 102, toByte 111, toByte 111, toByte 98, toByte 97, toByte 114] ∧
    base64Decode "Zg".toList = none ∧ base64Decode "Zg=".toList = none ∧
    base64Decode "Z===".toList = none ∧ base64Decode "Zg==Zg==".toList = none ∧
    base64Decode "Zm9v!".toList = none := by
  decide

theorem dispatch_post (d : Bool) : dispatch "POST".toList d = Action.call Handler.post := by
  cases d <;> decide

/-- A request with the method `POST` that is answered with 200 was served by
`postHandler`, after filesystem calls that write no file. -/
theorem indexHandler_post_ok {σ : Type} (fs : FileSys σ) (R : Str) (post : Request) (s : σ)
    (hp1 : post.method = "POST".toList)
    (hok : respCode (indexHandler fs R post s).resp = some 200) :
    ∃ ctx calls, ctx.rootDir = R ∧ (∀ q, FsCall.writeFile q ∉ calls) ∧
      indexHandler fs R post s = (postHandler fs ctx post s).after calls := by
  cases h1 : hasPrefix (pathClean post.urlPath) "/".toList with
  | false =>
    rw [indexHandler_invalid fs R post s h1, respCode_reply] at hok
    exact absurd hok (by decide)
  | true =>
    cases h2 : hasPrefix (filepathClean (filepathJoin [R, pathClean post.urlPath])) R with
    | false =>
      rw [indexHandler_denied fs R post s h1 h2, respCode_reply] at hok
      exact absurd hok (by decide)
    | true =>
      cases h3 : hasSuffix (pathClean post.urlPath) "/".toList with
      | true =>
        refine ⟨{ rootDir := R,
                  workDir := filepathClean (filepathJoin [R, pathClean post.urlPath]),
                  requestURL := pathClean post.urlPath,
                  localPath := filepathClean (filepathJoin [R, pathClean post.urlPath]),
                  isFolder := true }, [], rfl, by simp, ?_⟩
        simp only [indexHandler, h1, h2, h3, hp1, Bool.not_true, Bool.false_eq_true, if_false,
          if_true, dispatch_post, runHandler]
      | false =>
        cases h4 : IsDir fs s (filepathClean (filepathJoin [R, pathClean post.urlPath])) with
        | none =>
          simp only [indexHandler, h1, h2, h3, h4, Bool.not_true, Bool.false_eq_true, if_false,
            respCode] at hok
          exact absurd hok (by simp)
        | some d =>
          refine ⟨{ rootDir := R,
                    workDir :=
                      if d = true then filepathClean (filepathJoin [R, pathClean post.urlPath])
                      else filepathDir (filepathClean (filepathJoin [R, pathClean post.urlPath])),
                    requestURL := pathClean post.urlPath,
                    localPath := filepathClean (filepathJoin [R, pathClean post.urlPath]),
                    isFolder := d },
            [FsCall.stat (filepathClean (filepathJoin [R, pathClean post.urlPath]))],
            rfl, by simp, ?_⟩
          simp only [indexHandler, h1, h2, h3, h4, hp1, Bool.not_true, Bool.false_eq_true,
            if_false, dispatch_post, runHandler]

/-- A cleaned path that starts with a slash ends with one only if it is `/`. -/
theorem pathClean_no_trailing_slash (p : Str)
    (h1 : hasPrefix (pathClean p) "/".toList = true) (h2 : pathClean p ≠ "/".toList) :
    hasSuffix (pathClean p) "/".toList = false := by
  obtain ⟨bs, hb, hp⟩ := exists_absPath_of_rooted p h1
  have hne : bs ≠ [] := by
    intro e
    apply h2
    rw [hp, e]
    rfl
  cases hs : hasSuffix (pathClean p) "/".toList with
  | false => rfl
  | true =>
    exfalso
    rw [hp] at hs
    have hlast : (absPath bs).getLast? = some '/' := by
      rw [← List.head?_reverse]
      exact (hasPrefix_slash_iff _).1 hs
    obtain ⟨t, ht⟩ := List.getLast?_eq_some_iff.1 hlast
    have hsplit : splitSlash (absPath bs) = [] :: bs := by
      have := splitSlash_joinSlash bs hne (fun c hc => (hb c hc).2.2.2)
      simp [absPath, splitSlash, this]
    have hsplit2 : splitSlash (absPath bs) = splitSlash t ++ [[]] := by
      rw [ht, splitSlash_append_slash]
      rfl
    have hmem : ([] : Str) ∈ bs := by
      have h3 : ([] :: bs).getLast? = some ([] : Str) := by
        rw [← hsplit, hsplit2]
        exact List.getLast?_concat _
      cases bs with
      | nil => exact absurd rfl hne
      | cons b rest =>
        rw [List.getLast?_cons_cons] at h3
        exact List.mem_of_getLast?_eq_some h3
    exact (hb [] hmem).1 rfl

/-- C6 fails as stated: with the directory `d` in the root, the JSON-mode `POST /d`
carrying `filename` = `/a/b.txt` and `content` = `aGVsbG8=` succeeds and stores
the bytes at `/srv/data/d/a/b.txt`, the filename resolved against the working
directory of the request, and the JSON-mode `GET /a/b.txt` that follows is
answered with 404. -/
theorem upload_below_directory_not_found :
    (indexHandler memFS exampleRoot
        (jsonRequest "POST" "/d" "\x7b\"filename\":\"/a/b.txt\",\"content\":\"aGVsbG8=\"\x7d"
          [("filename", "/a/b.txt"), ("content", "aGVsbG8=")])
        exampleFSWithDir).resp = Response.output ⟨200, "OK".toList, Data.nil⟩ ∧
      (indexHandler memFS exampleRoot
        (jsonRequest "POST" "/d" "\x7b\"filename\":\"/a/b.txt\",\"content\":\"aGVsbG8=\"\x7d"
          [("filename", "/a/b.txt"), ("content", "aGVsbG8=")])
        exampleFSWithDir).calls =
        [FsCall.stat "/srv/data/d".toList, FsCall.mkdirAll "/srv/data/d/a".toList,
         FsCall.writeFile "/srv/data/d/a/b.txt".toList] ∧
      (indexHandler memFS exampleRoot (bodyless "GET" "/a/b.txt" true)
        (indexHandler memFS exampleRoot
          (jsonRequest "POST" "/d" "\x7b\"filename\":\"/a/b.txt\",\"content\":\"aGVsbG8=\"\x7d"
            [("filename", "/a/b.txt"), ("content", "aGVsbG8=")])
          exampleFSWithDir).state).resp =
        Response.output ⟨404, "File not found".toList, Data.nil⟩ := by
  decide

/-- C6, amended: over the in-memory filesystem, for every root, every byte string
`C` and every filename `D`: when a JSON-mode `POST`, to any URL path, carrying
`filename` = `D` and `content` = base64 of `C` succeeds, a JSON-mode `GET` of a URL
path that resolves to the file this `POST` wrote (the cleaned form of the path
starting with a slash and not being `/`) answers 200 with the `content` base64 of
`C`, and decoding that content gives back `C`.  The file written is `D` resolved
against the working directory of the URL path of the `POST`, so the `GET` is the
`GET` of `D` when the `POST` is sent to `/` (`upload_download_at_root`). -/
theorem upload_download_roundtrip (R : Str) (s : MemFS) (post get : Request) (params : Params)
    (D : Str) (C : List Byte)
    (hp1 : post.method = "POST".toList) (hp3 : post.returnJSON = true)
    (hp4 : HttpInput post = some params)
    (hp5 : params.lookup "filename".toList = some (JVal.str D))
    (hp6 : params.lookup "content".toList = some (JVal.str (base64Encode C)))
    (hok : (indexHandler memFS R post s).resp = Response.output ⟨200, "OK".toList, Data.nil⟩)
    (hg1 : get.method = "GET".toList) (hg3 : get.returnJSON = true)
    (hg4 : hasPrefix (pathClean get.urlPath) "/".toList = true)
    (hg5 : pathClean get.urlPath ≠ "/".toList)
    (hsame : FsCall.writeFile (localPathOf R get.urlPath) ∈ (indexHandler memFS R post s).calls) :
    (indexHandler memFS R get (indexHandler memFS R post s).state).resp =
        Response.output ⟨200, "OK".toList, Data.content (base64Encode C)⟩ ∧
      base64Decode (base64Encode C) = some C := by
  refine ⟨?_, base64Decode_encode C⟩
  obtain ⟨ctx, calls, hroot, hnw, he⟩ :=
    indexHandler_post_ok memFS R post s hp1 (by rw [hok]; rfl)
  rw [he] at hok hsame ⊢
  have hcode : respCode (postHandler memFS ctx post s).resp = some 200 := by
    have := congrArg respCode hok
    simpa [Outcome.after] using this
  obtain ⟨_, hpre, hfile, hcalls⟩ := postHandler_ok ctx post s params D C hp3 hp4 hp5 hp6 hcode
  have hdst : filepathJoin [ctx.workDir, filepathClean D] = localPathOf R get.urlPath := by
    simp only [Outcome.after, List.mem_append] at hsame
    rcases hsame with h | h
    · exact absurd h (hnw _)
    · exact (hcalls _ h).symm
  rw [hdst, hroot] at hpre
  rw [hdst] at hfile
  exact indexHandler_get_file R get _ C hg1 hg3 hg4 hpre
    (pathClean_no_trailing_slash get.urlPath hg4 hg5) hfile

/-- The amended C6 at the scenario of the specification: root `/srv/data`, `POST /`
with `filename` = `/a/b.txt` and `content` = `aGVsbG8=` (the bytes of `hello`),
then `GET /a/b.txt`. -/
theorem upload_download_roundtrip_witness :
    (base64Encode [toByte 104, toByte 101, toByte 108, toByte 108, toByte 111] =
        "aGVsbG8=".toList ∧
      (indexHandler memFS exampleRoot
          (jsonRequest "POST" "/" "\x7b\"filename\":\"/a/b.txt\",\"content\":\"aGVsbG8=\"\x7d"
            [("filename", "/a/b.txt"), ("content", "aGVsbG8=")])
          exampleFS).resp = Response.output ⟨200, "OK".toList, Data.nil⟩ ∧
      FsCall.writeFile (localPathOf exampleRoot (bodyless "GET" "/a/b.txt" true).urlPath) ∈
        (indexHandler memFS exampleRoot
          (jsonRequest "POST" "/" "\x7b\"filename\":\"/a/b.txt\",\"content\":\"aGVsbG8=\"\x7d"
            [("filename", "/a/b.txt"), ("content", "aGVsbG8=")])
          exampleFS).calls) ∧
    ((indexHandler memFS exampleRoot (bodyless "GET" "/a/b.txt" true)
          (indexHandler memFS exampleRoot
            (jsonRequest "POST" "/" "\x7b\"filename\":\"/a/b.txt\",\"content\":\"aGVsbG8=\"\x7d"
              [("filename", "/a/b.txt"), ("content", "aGVsbG8=")])
            exampleFS).state).resp =
        Response.output ⟨200, "OK".toList, Data.content
          (base64Encode [toByte 104, toByte 101, toByte 108, toByte 108, toByte 111])⟩ ∧
      base64Decode (base64Encode [toByte 104, toByte 101, toByte 108, toByte 108, toByte 111]) =
        some [toByte 104, toByte 101, toByte 108, toByte 108, toByte 111]) :=
  ⟨⟨by decide, by decide, by decide⟩,
    upload_download_roundtrip exampleRoot exampleFS
      (jsonRequest "POST" "/" "\x7b\"filename\":\"/a/b.txt\",\"content\":\"aGVsbG8=\"\x7d"
        [("filename", "/a/b.txt"), ("content", "aGVsbG8=")])
      (bodyless "GET" "/a/b.txt" true)
      [("filename".toList, JVal.str "/a/b.txt".toList),
       ("content".toList, JVal.str "aGVsbG8=".toList)]
      "/a/b.txt".toList [toByte 104, toByte 101, toByte 108, toByte 108, toByte 111]
      (by decide) (by decide) (by decide) (by decide) (by decide) (by decide) (by decide)
      (by decide) (by decide) (by decide) (by decide)⟩

end SFS
